import Mathlib

set_option maxRecDepth 4000

/-!
Shallow embedding of the apache-logformat tokenizer (src/lib.rs, src/parser.rs,
src/directive.rs).  The Rust code is written against the nom 3 parser-combinator
library with plain (non-verbose) errors; the combinators used by the source
(char!, tag!, is_not!, take!/take_str!, map!, map_res!, alt!, the sequencing
macros and many0!) are embedded here with their nom 3 semantics, and every
named! parser of parser.rs is transliterated on top of them.  Input is the raw
byte sequence (`&[u8]`), modelled as a list of natural numbers below 256;
string payloads of directives are represented by their UTF-8 bytes.
-/

/-- Bytes of the input format string, modelled as natural numbers (values below 256). -/
abbrev Byte := Nat

/-- Mirrors nom 3 Needed: how much input a parser would still need. -/
inductive Needed where
| Unknown : Needed
| Size : Nat → Needed
deriving DecidableEq, Repr

/-- Mirrors the nom 3 ErrorKind values reachable in this code base (plain, non-verbose errors). -/
inductive ErrKind where
| Char : ErrKind
| Tag : ErrKind
| IsNot : ErrKind
| MapRes : ErrKind
| Alt : ErrKind
| Many0 : ErrKind
deriving DecidableEq, Repr

/-- Mirrors nom 3 IResult: Done (remaining input, value), Error (error kind), or Incomplete. -/
inductive NomResult (α : Type) where
| Done : List Byte → α → NomResult α
| Error : ErrKind → NomResult α
| Incomplete : Needed → NomResult α
deriving DecidableEq, Repr

/-- Mirrors enum PortType of directive.rs. -/
inductive PortType where
| Canonical : PortType
| Local : PortType
| Remote : PortType
deriving DecidableEq, Repr

/-- Mirrors enum PIDType of directive.rs. -/
inductive PIDType where
| PID : PIDType
| TID : PIDType
| HexTID : PIDType
deriving DecidableEq, Repr

/-- Mirrors enum Directive of directive.rs; Cow str payloads are represented by their UTF-8 bytes. -/
inductive Directive where
| Literal : List Byte → Directive
| ClientIP : Directive
| PeerIP : Directive
| LocalIP : Directive
| ResSizeExcludingHeaders : Directive
| ResSize : Directive
| Cookie : List Byte → Directive
| ReqTime : Directive
| EnvVar : List Byte → Directive
| Filename : Directive
| Hostname : Directive
| Protocol : Directive
| ReqHeader : List Byte → Directive
| KeepAlive : Directive
| Logname : Directive
| ErrID : Directive
| Method : Directive
| Note : List Byte → Directive
| ResHeader : List Byte → Directive
| Port : PortType → Directive
| PID : PIDType → Directive
| Query : Directive
| ReqFirstLine : Directive
| ResHandler : Directive
| Status : Directive
| FinalStatus : Directive
| ReqRecvTime : Directive
| ReqServeTime : Directive
| User : Directive
| Path : Directive
| ServerName : Directive
| CanonicalServerName : Directive
| ResStatus : Directive
| SizeReceived : Directive
| SizeSent : Directive
| Size : Directive
| ReqTrailer : List Byte → Directive
| ResTrailer : List Byte → Directive
deriving DecidableEq, Repr

/-- Parsers over raw byte input, as in nom 3. -/
abbrev Parser (α : Type) := List Byte → NomResult α

/-- Bytes of an ASCII string literal (every string this development applies it to is ASCII, where UTF-8 bytes and code points coincide). -/
def ascii (s : String) : List Byte := s.data.map Char.toNat

/-- Mirrors nom 3 char!: Incomplete(Size 1) on empty input, Done consuming one byte on a match, Error(Char) otherwise. -/
def pchar (c : Byte) : Parser Byte := fun input =>
  match input with
  | [] => .Incomplete (.Size 1)
  | b :: rest => if b = c then .Done rest b else .Error .Char

/-- Mirrors nom 3 tag!: compare the overlapping prefix; a mismatch is Error(Tag), a matching but short input is Incomplete(Size tag-length), otherwise consume the tag. -/
def ptag (t : List Byte) : Parser (List Byte) := fun input =>
  if input.take (min t.length input.length) = t.take (min t.length input.length) then
    if input.length < t.length then .Incomplete (.Size t.length)
    else .Done (input.drop t.length) t
  else .Error .Tag

/-- Mirrors nom 3 take!: Incomplete when fewer than n bytes remain, otherwise consume exactly n bytes. -/
def ptake (n : Nat) : Parser (List Byte) := fun input =>
  if input.length < n then .Incomplete (.Size n) else .Done (input.drop n) (input.take n)

/-- Mirrors nom 3 is_not!: Error(IsNot) if the first byte is in the forbidden set, otherwise consume the maximal run of bytes outside the set (the whole input when no forbidden byte occurs; on empty input an empty success, as in the source). -/
def isNot (bad : List Byte) : Parser (List Byte) := fun input =>
  if input.takeWhile (fun b => !(bad.contains b)) = [] then
    if input = [] then .Done [] [] else .Error .IsNot
  else .Done (input.drop (input.takeWhile (fun b => !(bad.contains b))).length)
             (input.takeWhile (fun b => !(bad.contains b)))

/-- Mirrors nom 3 map!. -/
def pmap {α β : Type} (p : Parser α) (f : α → β) : Parser β := fun input =>
  match p input with
  | .Done rest a => .Done rest (f a)
  | .Error e => .Error e
  | .Incomplete n => .Incomplete n

/-- Mirrors nom 3 map_res!: a failure of the conversion function becomes Error(MapRes); parser failures propagate. -/
def pmapRes {α β : Type} (p : Parser α) (f : α → Option β) : Parser β := fun input =>
  match p input with
  | .Done rest a =>
    match f a with
    | some b => .Done rest b
    | none => .Error .MapRes
  | .Error e => .Error e
  | .Incomplete n => .Incomplete n

/-- Sequencing as in the nom 3 macros (do_parse!, delimited!, terminated!, preceded!): errors propagate unchanged, and an Incomplete size reported by the continuation is shifted by the number of bytes already consumed. -/
def pbind {α β : Type} (p : Parser α) (q : α → Parser β) : Parser β := fun input =>
  match p input with
  | .Error e => .Error e
  | .Incomplete n => .Incomplete n
  | .Done rest a =>
    match q a rest with
    | .Done rest2 b => .Done rest2 b
    | .Error e => .Error e
    | .Incomplete .Unknown => .Incomplete .Unknown
    | .Incomplete (.Size j) => .Incomplete (.Size (j + (input.length - rest.length)))

/-- Mirrors nom 3 delimited!. -/
def delimited {α β γ : Type} (p1 : Parser α) (p2 : Parser β) (p3 : Parser γ) : Parser β :=
  pbind p1 (fun _ => pbind p2 (fun b => pmap p3 (fun _ => b)))

/-- Mirrors nom 3 terminated!. -/
def terminated {α β : Type} (p1 : Parser α) (p2 : Parser β) : Parser α :=
  pbind p1 (fun a => pmap p2 (fun _ => a))

/-- Mirrors nom 3 preceded!. -/
def preceded {α β : Type} (p1 : Parser α) (p2 : Parser β) : Parser β :=
  pbind p1 (fun _ => p2)

/-- Mirrors nom 3 alt!: try alternatives in order; only an Error falls through to the next branch; exhaustion yields Error(Alt). -/
def palt {α : Type} : List (Parser α) → Parser α
| [], _ => .Error .Alt
| p :: ps, input =>
  match p input with
  | .Error _ => palt ps input
  | .Done rest a => .Done rest a
  | .Incomplete n => .Incomplete n

/-- Continuation bytes of UTF-8 lie between 0x80 and 0xBF. -/
def utf8Cont (b : Byte) : Bool := 128 ≤ b && b ≤ 191

/-- Mirrors the validation performed by str::from_utf8 (strict UTF-8: no overlong forms, no surrogates, at most U+10FFFF). -/
def utf8Valid : List Byte → Bool
| [] => true
| b :: rest =>
  if b ≤ 127 then utf8Valid rest
  else if 194 ≤ b && b ≤ 223 then
    match rest with
    | c :: r => utf8Cont c && utf8Valid r
    | [] => false
  else if b = 224 then
    match rest with
    | c :: d :: r => (160 ≤ c && c ≤ 191) && utf8Cont d && utf8Valid r
    | _ => false
  else if 225 ≤ b && b ≤ 236 then
    match rest with
    | c :: d :: r => utf8Cont c && utf8Cont d && utf8Valid r
    | _ => false
  else if b = 237 then
    match rest with
    | c :: d :: r => (128 ≤ c && c ≤ 159) && utf8Cont d && utf8Valid r
    | _ => false
  else if 238 ≤ b && b ≤ 239 then
    match rest with
    | c :: d :: r => utf8Cont c && utf8Cont d && utf8Valid r
    | _ => false
  else if b = 240 then
    match rest with
    | c :: d :: e :: r => (144 ≤ c && c ≤ 191) && utf8Cont d && utf8Cont e && utf8Valid r
    | _ => false
  else if 241 ≤ b && b ≤ 243 then
    match rest with
    | c :: d :: e :: r => utf8Cont c && utf8Cont d && utf8Cont e && utf8Valid r
    | _ => false
  else if b = 244 then
    match rest with
    | c :: d :: e :: r => (128 ≤ c && c ≤ 143) && utf8Cont d && utf8Cont e && utf8Valid r
    | _ => false
  else false

/-- Mirrors str::from_utf8 as used under map_res!: succeeds exactly on valid UTF-8, and the resulting str is represented by the same bytes. -/
def fromUtf8 (bs : List Byte) : Option (List Byte) :=
  if utf8Valid bs then some bs else none

/-- Single-character dispatch table of impl FromStr for Directive in directive.rs, keyed by the byte of the one-character string. -/
def Directive.fromChar (c : Byte) : Option Directive :=
    if c = 37 then some (Directive.Literal [37])
    else if c = 97 then some Directive.ClientIP
    else if c = 65 then some Directive.LocalIP
    else if c = 66 then some Directive.ResSizeExcludingHeaders
    else if c = 98 then some Directive.ResSize
    else if c = 68 then some Directive.ReqTime
    else if c = 102 then some Directive.Filename
    else if c = 104 then some Directive.Hostname
    else if c = 72 then some Directive.Protocol
    else if c = 107 then some Directive.KeepAlive
    else if c = 108 then some Directive.Logname
    else if c = 76 then some Directive.ErrID
    else if c = 109 then some Directive.Method
    else if c = 112 then some (Directive.Port PortType.Canonical)
    else if c = 80 then some (Directive.PID PIDType.PID)
    else if c = 113 then some Directive.Query
    else if c = 114 then some Directive.ReqFirstLine
    else if c = 82 then some Directive.ResHandler
    else if c = 115 then some Directive.Status
    else if c = 116 then some Directive.ReqRecvTime
    else if c = 84 then some Directive.ReqServeTime
    else if c = 117 then some Directive.User
    else if c = 85 then some Directive.Path
    else if c = 118 then some Directive.ServerName
    else if c = 86 then some Directive.CanonicalServerName
    else if c = 88 then some Directive.ResStatus
    else if c = 73 then some Directive.SizeReceived
    else if c = 79 then some Directive.SizeSent
    else if c = 83 then some Directive.Size
    else none

/-- Mirrors impl FromStr for Directive in directive.rs: every arm of the Rust match is a one-character string, so a one-character input dispatches through the table and any other string is rejected with Err. -/
def Directive.fromStr (s : List Byte) : Option Directive :=
  match s with
  | [c] => Directive.fromChar c
  | _ => none

/-- Mirrors named!(parens, delimited!(char!(opening brace), is_not!(closing brace), char!(closing brace))); byte 123 is the opening and 125 the closing brace. -/
def parens : Parser (List Byte) := delimited (pchar 123) (isNot [125]) (pchar 125)

/-- Mirrors named!(peer_ip_parser): the literal braced c followed by a (bytes 123, 99, 125, 97). -/
def peerIpParser : Parser Directive :=
  pbind (pchar 123) (fun _ =>
  pbind (pchar 99) (fun _ =>
  pbind (pchar 125) (fun _ =>
  pmap (pchar 97) (fun _ => Directive.PeerIP))))

/-- Mirrors named!(req_cookie_parser): parens then C (byte 67), payload through from_utf8. -/
def reqCookieParser : Parser Directive :=
  pmap (pmapRes (terminated parens (pchar 67)) fromUtf8) (fun s => Directive.Cookie s)

/-- Mirrors named!(env_var_parser): parens then e (byte 101). -/
def envVarParser : Parser Directive :=
  pmap (pmapRes (terminated parens (pchar 101)) fromUtf8) (fun s => Directive.EnvVar s)

/-- Mirrors named!(req_header_parser): parens then i (byte 105). -/
def reqHeaderParser : Parser Directive :=
  pmap (pmapRes (terminated parens (pchar 105)) fromUtf8) (fun s => Directive.ReqHeader s)

/-- Mirrors named!(note_parser): parens then n (byte 110). -/
def noteParser : Parser Directive :=
  pmap (pmapRes (terminated parens (pchar 110)) fromUtf8) (fun s => Directive.Note s)

/-- Mirrors named!(res_header_parser): parens then o (byte 111). -/
def resHeaderParser : Parser Directive :=
  pmap (pmapRes (terminated parens (pchar 111)) fromUtf8) (fun s => Directive.ResHeader s)

/-- Mirrors named!(port_type_parser_c). -/
def portTypeParserC : Parser PortType := pmap (ptag (ascii "canonical")) (fun _ => PortType.Canonical)

/-- Mirrors named!(port_type_parser_l). -/
def portTypeParserL : Parser PortType := pmap (ptag (ascii "local")) (fun _ => PortType.Local)

/-- Mirrors named!(port_type_parser_r). -/
def portTypeParserR : Parser PortType := pmap (ptag (ascii "remote")) (fun _ => PortType.Remote)

/-- Mirrors named!(port_type_parser): alternation of the three closed literals. -/
def portTypeParser : Parser PortType := fun input =>
  palt [portTypeParserC, portTypeParserL, portTypeParserR] input

/-- Mirrors named!(custom_port_parser): braced port type followed by p (byte 112). -/
def customPortParser : Parser Directive :=
  pbind (pchar 123) (fun _ =>
  pbind portTypeParser (fun p =>
  pbind (pchar 125) (fun _ =>
  pmap (pchar 112) (fun _ => Directive.Port p))))

/-- Mirrors named!(pid_type_parser_p). -/
def pidTypeParserP : Parser PIDType := pmap (ptag (ascii "pid")) (fun _ => PIDType.PID)

/-- Mirrors named!(pid_type_parser_t). -/
def pidTypeParserT : Parser PIDType := pmap (ptag (ascii "tid")) (fun _ => PIDType.TID)

/-- Mirrors named!(pid_type_parser_h). -/
def pidTypeParserH : Parser PIDType := pmap (ptag (ascii "hextid")) (fun _ => PIDType.HexTID)

/-- Mirrors named!(pid_type_parser): alternation of the three closed literals. -/
def pidTypeParser : Parser PIDType := fun input =>
  palt [pidTypeParserP, pidTypeParserT, pidTypeParserH] input

/-- Mirrors named!(custom_pid_parser): braced pid type followed by P (byte 80). -/
def customPidParser : Parser Directive :=
  pbind (pchar 123) (fun _ =>
  pbind pidTypeParser (fun p =>
  pbind (pchar 125) (fun _ =>
  pmap (pchar 80) (fun _ => Directive.PID p))))

/-- Mirrors named!(final_status_parser): the two characters greater-than (62) and s (115). -/
def finalStatusParser : Parser Directive :=
  pbind (pchar 62) (fun _ =>
  pmap (pchar 115) (fun _ => Directive.FinalStatus))

/-- Mirrors named!(req_trailer_parser): parens then the tag caret t i. -/
def reqTrailerParser : Parser Directive :=
  pmap (pmapRes (terminated parens (ptag (ascii "^ti"))) fromUtf8) (fun s => Directive.ReqTrailer s)

/-- Mirrors named!(res_trailer_parser): parens then the tag caret t o. -/
def resTrailerParser : Parser Directive :=
  pmap (pmapRes (terminated parens (ptag (ascii "^to"))) fromUtf8) (fun s => Directive.ResTrailer s)

/-- Mirrors take_str!(n), which the source expands to map_res!(take!(n), str::from_utf8). -/
def takeStr (n : Nat) : Parser (List Byte) := pmapRes (ptake n) fromUtf8

/-- Mirrors named!(pub directive_parser): a percent sign (byte 37) followed by the alternation of the eleven parameterized grammars and the single-character dispatch table, in source order. -/
def directiveParser : Parser Directive :=
  preceded (pchar 37) (fun input =>
    palt [peerIpParser, reqCookieParser, envVarParser, reqHeaderParser, noteParser,
          resHeaderParser, customPortParser, customPidParser, finalStatusParser,
          reqTrailerParser, resTrailerParser, pmapRes (takeStr 1) Directive.fromStr] input)

/-- Mirrors named!(constant_parser): the maximal percent-free run, through from_utf8, as a Literal. -/
def constantParser : Parser Directive :=
  pmap (pmapRes (isNot [37]) fromUtf8) (fun s => Directive.Literal s)

/-- One step of the top-level driver: alt!(directive_parser | constant_parser). -/
def dirOrConst : Parser Directive := fun input =>
  palt [directiveParser, constantParser] input

/-- Mirrors the nom 3 many0! loop, with explicit fuel bounding the number of loop iterations.  As in the source: empty input stops with the accumulated values; a child Error stops, returning Done with the unconsumed input; a child Incomplete propagates with its needed size shifted by the amount already consumed; a child success without progress yields Error(Many0). -/
def many0F {α : Type} (p : Parser α) : Nat → List Byte → Option (NomResult (List α))
| 0 => fun _ => none
| Nat.succ fuel => fun input =>
  if input = [] then some (.Done input [])
  else
    match p input with
    | .Error _ => some (.Done input [])
    | .Incomplete n => some (.Incomplete n)
    | .Done i o =>
      if i = input then some (.Error .Many0)
      else
        match many0F p fuel i with
        | none => none
        | some (.Done rest res) => some (.Done rest (o :: res))
        | some (.Error e) => some (.Error e)
        | some (.Incomplete .Unknown) => some (.Incomplete .Unknown)
        | some (.Incomplete (.Size j)) => some (.Incomplete (.Size (j + (input.length - i.length))))

/-- Mirrors named!(pub logformat_parser): many0!(alt!(directive_parser | constant_parser)).  One fuel unit per input byte plus one bounds the loop; the termination theorem shows the fuel is never exhausted, so the fallback arm is unreachable. -/
def logformatParser (input : List Byte) : NomResult (List Directive) :=
  match many0F dirOrConst (input.length + 1) input with
  | some r => r
  | none => .Error .Many0

/-- Mirrors pub const CLF of lib.rs, the Common Log Format. -/
def CLF : List Byte := ascii "%h %l %u %t \"%r\" %>s %b"

/-- Text parameter payloads of the name-parameterized directive kinds are non-empty; all other directives satisfy the predicate trivially. -/
def textParamNE : Directive → Prop
| .Cookie s => s ≠ []
| .EnvVar s => s ≠ []
| .ReqHeader s => s ≠ []
| .Note s => s ≠ []
| .ResHeader s => s ≠ []
| .ReqTrailer s => s ≠ []
| .ResTrailer s => s ≠ []
| _ => True

/-- Literal payload facts: a Literal token is either the percent-sign token produced by the double-percent directive or a non-empty percent-free run from the literal scanner. -/
def litOK (d : Directive) : Prop :=
  ∀ s, d = Directive.Literal s → s = [37] ∨ (s ≠ [] ∧ ¬ (37 ∈ s))

/-- Two adjacent tokens are acceptable when they are not both Literals, or when at least one of the two Literals is the percent-sign token (which comes from the directive path, not the literal scanner). -/
def pairOK (d1 d2 : Directive) : Prop :=
  ∀ s t, d1 = Directive.Literal s → d2 = Directive.Literal t → s = [37] ∨ t = [37]

/-- Every adjacent pair in the token list is acceptable. -/
def adjOK : List Directive → Prop
| [] => True
| [_] => True
| d1 :: d2 :: rest => pairOK d1 d2 ∧ adjOK (d2 :: rest)

/-- Parsers whose Done remainder is always a suffix of their input (every parser in this development has this property; it fails only for contrived parsers, which the source never builds). -/
def pSuffix {α : Type} (p : Parser α) : Prop :=
  ∀ input rest a, p input = NomResult.Done rest a → ∃ pre, pre ++ rest = input

/-- Claim C1: parsing the predefined Common Log Format constant with the top-level entry point consumes the whole input and yields exactly the thirteen-token sequence Hostname, Literal space, Logname, Literal space, User, Literal space, ReqRecvTime, Literal space-quote, ReqFirstLine, Literal quote-space, FinalStatus, Literal space, ResSize. -/
theorem c1_clf_tokens :
    logformatParser CLF =
      NomResult.Done []
        [Directive.Hostname, Directive.Literal (ascii " "),
         Directive.Logname, Directive.Literal (ascii " "),
         Directive.User, Directive.Literal (ascii " "),
         Directive.ReqRecvTime, Directive.Literal (ascii " \""),
         Directive.ReqFirstLine, Directive.Literal (ascii "\" "),
         Directive.FinalStatus, Directive.Literal (ascii " "),
         Directive.ResSize] := by
  decide

/-- Claim C4: braced port and pid selectors parse to the corresponding enum-parameterized directives, and the unknown selector words quuz and corge are rejected outright: the directive attempt fails with Error(Alt) and the top-level parse produces no token and consumes nothing. -/
theorem c4_port_pid :
    logformatParser (ascii "%\x7bcanonical\x7dp") = NomResult.Done [] [Directive.Port PortType.Canonical] ∧
    logformatParser (ascii "%\x7blocal\x7dp") = NomResult.Done [] [Directive.Port PortType.Local] ∧
    logformatParser (ascii "%\x7bremote\x7dp") = NomResult.Done [] [Directive.Port PortType.Remote] ∧
    logformatParser (ascii "%\x7bpid\x7dP") = NomResult.Done [] [Directive.PID PIDType.PID] ∧
    logformatParser (ascii "%\x7btid\x7dP") = NomResult.Done [] [Directive.PID PIDType.TID] ∧
    logformatParser (ascii "%\x7bhextid\x7dP") = NomResult.Done [] [Directive.PID PIDType.HexTID] ∧
    directiveParser (ascii "%\x7bquuz\x7dp") = NomResult.Error ErrKind.Alt ∧
    logformatParser (ascii "%\x7bquuz\x7dp") = NomResult.Done (ascii "%\x7bquuz\x7dp") [] ∧
    directiveParser (ascii "%\x7bcorge\x7dP") = NomResult.Error ErrKind.Alt ∧
    logformatParser (ascii "%\x7bcorge\x7dP") = NomResult.Done (ascii "%\x7bcorge\x7dP") [] := by
  decide

/-- Claim C5 counterexample: the single-directive entry point does not accept a bare dispatch-table character.  The code a is in the table, yet on the string consisting of a alone the entry point fails with Error(Char) instead of yielding ClientIP, because it consumes the leading percent marker itself. -/
theorem c5_counterexample :
    Directive.fromStr (ascii "a") = some Directive.ClientIP ∧
    directiveParser (ascii "a") = NomResult.Error ErrKind.Char := by
  decide

set_option maxHeartbeats 2000000 in
/-- Claim C5 amended: the single-directive entry point accepts input starting at (and including) the leading percent marker, not immediately after it: for every single-character code c of the dispatch table, applying it to the percent byte followed by c succeeds and yields the corresponding Directive, while applying it to the string consisting of c alone never succeeds. -/
theorem c5_directive_entry (c : Byte) (d : Directive)
    (h : Directive.fromStr [c] = some d) :
    directiveParser [37, c] = NomResult.Done [] d ∧
    ∀ (r : List Byte) (d2 : Directive), directiveParser [c] ≠ NomResult.Done r d2 := by
  by_cases e1 : c = 37
  · subst e1
    have h3 : some (Directive.Literal [37]) = some d := h
    injection h3 with h4
    subst h4
    refine ⟨by decide, ?_⟩
    intro r d2 hcon
    rw [show directiveParser [37] = NomResult.Incomplete (Needed.Size 2) from by decide] at hcon
    exact NomResult.noConfusion hcon
  by_cases e2 : c = 97
  · subst e2
    have h3 : some Directive.ClientIP = some d := h
    injection h3 with h4
    subst h4
    refine ⟨by decide, ?_⟩
    intro r d2 hcon
    rw [show directiveParser [97] = NomResult.Error ErrKind.Char from by decide] at hcon
    exact NomResult.noConfusion hcon
  by_cases e3 : c = 65
  · subst e3
    have h3 : some Directive.LocalIP = some d := h
    injection h3 with h4
    subst h4
    refine ⟨by decide, ?_⟩
    intro r d2 hcon
    rw [show directiveParser [65] = NomResult.Error ErrKind.Char from by decide] at hcon
    exact NomResult.noConfusion hcon
  by_cases e4 : c = 66
  · subst e4
    have h3 : some Directive.ResSizeExcludingHeaders = some d := h
    injection h3 with h4
    subst h4
    refine ⟨by decide, ?_⟩
    intro r d2 hcon
    rw [show directiveParser [66] = NomResult.Error ErrKind.Char from by decide] at hcon
    exact NomResult.noConfusion hcon
  by_cases e5 : c = 98
  · subst e5
    have h3 : some Directive.ResSize = some d := h
    injection h3 with h4
    subst h4
    refine ⟨by decide, ?_⟩
    intro r d2 hcon
    rw [show directiveParser [98] = NomResult.Error ErrKind.Char from by decide] at hcon
    exact NomResult.noConfusion hcon
  by_cases e6 : c = 68
  · subst e6
    have h3 : some Directive.ReqTime = some d := h
    injection h3 with h4
    subst h4
    refine ⟨by decide, ?_⟩
    intro r d2 hcon
    rw [show directiveParser [68] = NomResult.Error ErrKind.Char from by decide] at hcon
    exact NomResult.noConfusion hcon
  by_cases e7 : c = 102
  · subst e7
    have h3 : some Directive.Filename = some d := h
    injection h3 with h4
    subst h4
    refine ⟨by decide, ?_⟩
    intro r d2 hcon
    rw [show directiveParser [102] = NomResult.Error ErrKind.Char from by decide] at hcon
    exact NomResult.noConfusion hcon
  by_cases e8 : c = 104
  · subst e8
    have h3 : some Directive.Hostname = some d := h
    injection h3 with h4
    subst h4
    refine ⟨by decide, ?_⟩
    intro r d2 hcon
    rw [show directiveParser [104] = NomResult.Error ErrKind.Char from by decide] at hcon
    exact NomResult.noConfusion hcon
  by_cases e9 : c = 72
  · subst e9
    have h3 : some Directive.Protocol = some d := h
    injection h3 with h4
    subst h4
    refine ⟨by decide, ?_⟩
    intro r d2 hcon
    rw [show directiveParser [72] = NomResult.Error ErrKind.Char from by decide] at hcon
    exact NomResult.noConfusion hcon
  by_cases e10 : c = 107
  · subst e10
    have h3 : some Directive.KeepAlive = some d := h
    injection h3 with h4
    subst h4
    refine ⟨by decide, ?_⟩
    intro r d2 hcon
    rw [show directiveParser [107] = NomResult.Error ErrKind.Char from by decide] at hcon
    exact NomResult.noConfusion hcon
  by_cases e11 : c = 108
  · subst e11
    have h3 : some Directive.Logname = some d := h
    injection h3 with h4
    subst h4
    refine ⟨by decide, ?_⟩
    intro r d2 hcon
    rw [show directiveParser [108] = NomResult.Error ErrKind.Char from by decide] at hcon
    exact NomResult.noConfusion hcon
  by_cases e12 : c = 76
  · subst e12
    have h3 : some Directive.ErrID = some d := h
    injection h3 with h4
    subst h4
    refine ⟨by decide, ?_⟩
    intro r d2 hcon
    rw [show directiveParser [76] = NomResult.Error ErrKind.Char from by decide] at hcon
    exact NomResult.noConfusion hcon
  by_cases e13 : c = 109
  · subst e13
    have h3 : some Directive.Method = some d := h
    injection h3 with h4
    subst h4
    refine ⟨by decide, ?_⟩
    intro r d2 hcon
    rw [show directiveParser [109] = NomResult.Error ErrKind.Char from by decide] at hcon
    exact NomResult.noConfusion hcon
  by_cases e14 : c = 112
  · subst e14
    have h3 : some (Directive.Port PortType.Canonical) = some d := h
    injection h3 with h4
    subst h4
    refine ⟨by decide, ?_⟩
    intro r d2 hcon
    rw [show directiveParser [112] = NomResult.Error ErrKind.Char from by decide] at hcon
    exact NomResult.noConfusion hcon
  by_cases e15 : c = 80
  · subst e15
    have h3 : some (Directive.PID PIDType.PID) = some d := h
    injection h3 with h4
    subst h4
    refine ⟨by decide, ?_⟩
    intro r d2 hcon
    rw [show directiveParser [80] = NomResult.Error ErrKind.Char from by decide] at hcon
    exact NomResult.noConfusion hcon
  by_cases e16 : c = 113
  · subst e16
    have h3 : some Directive.Query = some d := h
    injection h3 with h4
    subst h4
    refine ⟨by decide, ?_⟩
    intro r d2 hcon
    rw [show directiveParser [113] = NomResult.Error ErrKind.Char from by decide] at hcon
    exact NomResult.noConfusion hcon
  by_cases e17 : c = 114
  · subst e17
    have h3 : some Directive.ReqFirstLine = some d := h
    injection h3 with h4
    subst h4
    refine ⟨by decide, ?_⟩
    intro r d2 hcon
    rw [show directiveParser [114] = NomResult.Error ErrKind.Char from by decide] at hcon
    exact NomResult.noConfusion hcon
  by_cases e18 : c = 82
  · subst e18
    have h3 : some Directive.ResHandler = some d := h
    injection h3 with h4
    subst h4
    refine ⟨by decide, ?_⟩
    intro r d2 hcon
    rw [show directiveParser [82] = NomResult.Error ErrKind.Char from by decide] at hcon
    exact NomResult.noConfusion hcon
  by_cases e19 : c = 115
  · subst e19
    have h3 : some Directive.Status = some d := h
    injection h3 with h4
    subst h4
    refine ⟨by decide, ?_⟩
    intro r d2 hcon
    rw [show directiveParser [115] = NomResult.Error ErrKind.Char from by decide] at hcon
    exact NomResult.noConfusion hcon
  by_cases e20 : c = 116
  · subst e20
    have h3 : some Directive.ReqRecvTime = some d := h
    injection h3 with h4
    subst h4
    refine ⟨by decide, ?_⟩
    intro r d2 hcon
    rw [show directiveParser [116] = NomResult.Error ErrKind.Char from by decide] at hcon
    exact NomResult.noConfusion hcon
  by_cases e21 : c = 84
  · subst e21
    have h3 : some Directive.ReqServeTime = some d := h
    injection h3 with h4
    subst h4
    refine ⟨by decide, ?_⟩
    intro r d2 hcon
    rw [show directiveParser [84] = NomResult.Error ErrKind.Char from by decide] at hcon
    exact NomResult.noConfusion hcon
  by_cases e22 : c = 117
  · subst e22
    have h3 : some Directive.User = some d := h
    injection h3 with h4
    subst h4
    refine ⟨by decide, ?_⟩
    intro r d2 hcon
    rw [show directiveParser [117] = NomResult.Error ErrKind.Char from by decide] at hcon
    exact NomResult.noConfusion hcon
  by_cases e23 : c = 85
  · subst e23
    have h3 : some Directive.Path = some d := h
    injection h3 with h4
    subst h4
    refine ⟨by decide, ?_⟩
    intro r d2 hcon
    rw [show directiveParser [85] = NomResult.Error ErrKind.Char from by decide] at hcon
    exact NomResult.noConfusion hcon
  by_cases e24 : c = 118
  · subst e24
    have h3 : some Directive.ServerName = some d := h
    injection h3 with h4
    subst h4
    refine ⟨by decide, ?_⟩
    intro r d2 hcon
    rw [show directiveParser [118] = NomResult.Error ErrKind.Char from by decide] at hcon
    exact NomResult.noConfusion hcon
  by_cases e25 : c = 86
  · subst e25
    have h3 : some Directive.CanonicalServerName = some d := h
    injection h3 with h4
    subst h4
    refine ⟨by decide, ?_⟩
    intro r d2 hcon
    rw [show directiveParser [86] = NomResult.Error ErrKind.Char from by decide] at hcon
    exact NomResult.noConfusion hcon
  by_cases e26 : c = 88
  · subst e26
    have h3 : some Directive.ResStatus = some d := h
    injection h3 with h4
    subst h4
    refine ⟨by decide, ?_⟩
    intro r d2 hcon
    rw [show directiveParser [88] = NomResult.Error ErrKind.Char from by decide] at hcon
    exact NomResult.noConfusion hcon
  by_cases e27 : c = 73
  · subst e27
    have h3 : some Directive.SizeReceived = some d := h
    injection h3 with h4
    subst h4
    refine ⟨by decide, ?_⟩
    intro r d2 hcon
    rw [show directiveParser [73] = NomResult.Error ErrKind.Char from by decide] at hcon
    exact NomResult.noConfusion hcon
  by_cases e28 : c = 79
  · subst e28
    have h3 : some Directive.SizeSent = some d := h
    injection h3 with h4
    subst h4
    refine ⟨by decide, ?_⟩
    intro r d2 hcon
    rw [show directiveParser [79] = NomResult.Error ErrKind.Char from by decide] at hcon
    exact NomResult.noConfusion hcon
  by_cases e29 : c = 83
  · subst e29
    have h3 : some Directive.Size = some d := h
    injection h3 with h4
    subst h4
    refine ⟨by decide, ?_⟩
    intro r d2 hcon
    rw [show directiveParser [83] = NomResult.Error ErrKind.Char from by decide] at hcon
    exact NomResult.noConfusion hcon
  exfalso
  have hn : Directive.fromChar c = none := by
    unfold Directive.fromChar
    rw [if_neg e1, if_neg e2, if_neg e3, if_neg e4, if_neg e5, if_neg e6, if_neg e7, if_neg e8, if_neg e9, if_neg e10, if_neg e11, if_neg e12, if_neg e13, if_neg e14, if_neg e15, if_neg e16, if_neg e17, if_neg e18, if_neg e19, if_neg e20, if_neg e21, if_neg e22, if_neg e23, if_neg e24, if_neg e25, if_neg e26, if_neg e27, if_neg e28, if_neg e29]
  have h5 : Directive.fromStr [c] = none := hn
  rw [h5] at h
  exact Option.noConfusion h

/-- Witness for the amended Claim C5 at the concrete code a: with the percent marker it parses to ClientIP, and the bare code alone does not succeed. -/
theorem c5_witness :
    directiveParser [37, 97] = NomResult.Done [] Directive.ClientIP ∧
    directiveParser [97] ≠ NomResult.Done [] Directive.ClientIP :=
  ⟨(c5_directive_entry 97 Directive.ClientIP (by decide)).1,
   (c5_directive_entry 97 Directive.ClientIP (by decide)).2 [] Directive.ClientIP⟩
/-- Claim C2 counterexample: on the input abc percent x, whose percent cannot be completed into a directive, the top-level parse returns the success constructor Done carrying the tokens before the failure and the unconsumed suffix, with no failure reason; it does not signal a malformed outcome. -/
theorem c2_counterexample :
    logformatParser (ascii "abc%x") = NomResult.Done (ascii "%x") [Directive.Literal (ascii "abc")] := by
  decide

/-- Claim C3 counterexample: the single byte 255 is a non-empty format string containing no percent byte, yet the top-level parse does not yield Literal of it: the byte is not valid UTF-8, the literal scanner's from_utf8 conversion fails, and the parse stops at once, consuming nothing. -/
theorem c3_counterexample :
    ([255] : List Byte) ≠ [] ∧ ¬ (37 ∈ ([255] : List Byte)) ∧
    logformatParser [255] = NomResult.Done [255] [] ∧
    logformatParser [255] ≠ NomResult.Done [] [Directive.Literal [255]] := by
  decide

/-- Claim C7 counterexample: the byte 255 is a non-empty run containing no closing brace, yet the braced req-header form around it fails to parse: from_utf8 rejects the parameter, so the parameter content is not an arbitrary byte run. -/
theorem c7_counterexample :
    ([255] : List Byte) ≠ [] ∧ ¬ (125 ∈ ([255] : List Byte)) ∧
    logformatParser [37, 123, 255, 125, 105] = NomResult.Done [37, 123, 255, 125, 105] [] := by
  decide

/-- A list all of whose elements satisfy p is its own maximal p-prefix. -/
theorem takeWhile_all {p : Byte → Bool} : ∀ {l : List Byte}, (∀ b ∈ l, p b = true) → l.takeWhile p = l
| [], _ => rfl
| b :: t, h => by
  have hb : p b = true := h b (List.mem_cons_self b t)
  have ht : t.takeWhile p = t := takeWhile_all (fun x hx => h x (List.mem_cons_of_mem b hx))
  simp only [List.takeWhile, hb]
  exact congrArg (List.cons b) ht

/-- The maximal p-prefix of l ++ x :: r is l when everything in l satisfies p and x does not. -/
theorem takeWhile_stop {p : Byte → Bool} : ∀ {l : List Byte} {x : Byte} {r : List Byte},
    (∀ b ∈ l, p b = true) → p x = false → (l ++ x :: r).takeWhile p = l
| [], x, r, _, hx => by simp [List.takeWhile, hx]
| b :: t, x, r, h, hx => by
  have hb : p b = true := h b (List.mem_cons_self b t)
  have ht : (t ++ x :: r).takeWhile p = t := takeWhile_stop (fun y hy => h y (List.mem_cons_of_mem b hy)) hx
  simp only [List.cons_append, List.takeWhile, hb]
  exact congrArg (List.cons b) ht

/-- Every element of the maximal p-prefix satisfies p. -/
theorem mem_takeWhile {p : Byte → Bool} : ∀ {l : List Byte} {b : Byte}, b ∈ l.takeWhile p → p b = true
| [], b, h => absurd h (List.not_mem_nil b)
| x :: t, b, h => by
  cases hx : p x with
  | true =>
    simp only [List.takeWhile, hx] at h
    rcases List.mem_cons.mp h with h1 | h2
    · rw [h1]; exact hx
    · exact mem_takeWhile h2
  | false =>
    simp only [List.takeWhile, hx] at h
    exact absurd h (List.not_mem_nil b)

/-- Dropping the length of the maximal p-prefix is dropWhile. -/
theorem drop_takeWhile {p : Byte → Bool} : ∀ (l : List Byte), l.drop (l.takeWhile p).length = l.dropWhile p
| [] => rfl
| b :: t => by
  cases hb : p b with
  | true =>
    simp only [List.takeWhile, List.dropWhile, hb, List.length_cons, List.drop_succ_cons]
    exact drop_takeWhile t
  | false => simp [List.takeWhile, List.dropWhile, hb]

/-- The first element remaining after dropWhile fails p. -/
theorem dropWhile_head {p : Byte → Bool} : ∀ {l : List Byte} {b : Byte} {t : List Byte},
    l.dropWhile p = b :: t → p b = false
| [], b, t, h => by exact List.noConfusion h
| x :: l2, b, t, h => by
  cases hx : p x with
  | true =>
    simp only [List.dropWhile, hx] at h
    exact dropWhile_head h
  | false =>
    simp only [List.dropWhile, hx] at h
    injection h with h1 h2
    rw [← h1]; exact hx

/-- Computation rule: an erring head alternative falls through. -/
theorem palt_cons_err {α : Type} {p : Parser α} {ps : List (Parser α)} {input : List Byte} {e : ErrKind}
    (h : p input = .Error e) : palt (p :: ps) input = palt ps input := by
  conv_lhs => unfold palt
  simp only [h]

/-- Computation rule: a succeeding head alternative is returned. -/
theorem palt_cons_done {α : Type} {p : Parser α} {ps : List (Parser α)} {input rest : List Byte} {a : α}
    (h : p input = .Done rest a) : palt (p :: ps) input = .Done rest a := by
  conv_lhs => unfold palt
  simp only [h]

/-- Computation rule: an Incomplete head alternative is returned at once. -/
theorem palt_cons_inc {α : Type} {p : Parser α} {ps : List (Parser α)} {input : List Byte} {n : Needed}
    (h : p input = .Incomplete n) : palt (p :: ps) input = .Incomplete n := by
  conv_lhs => unfold palt
  simp only [h]

/-- Computation rule for pbind when the first parser fails. -/
theorem pbind_err1 {α β : Type} {p : Parser α} {q : α → Parser β} {input : List Byte} {e : ErrKind}
    (h : p input = .Error e) : pbind p q input = .Error e := by
  unfold pbind; simp only [h]

/-- Computation rule for pbind when the first parser is Incomplete. -/
theorem pbind_inc1 {α β : Type} {p : Parser α} {q : α → Parser β} {input : List Byte} {n : Needed}
    (h : p input = .Incomplete n) : pbind p q input = .Incomplete n := by
  unfold pbind; simp only [h]

/-- Computation rule for pbind when both parsers succeed. -/
theorem pbind_done2 {α β : Type} {p : Parser α} {q : α → Parser β} {input mid rest : List Byte} {a : α} {b : β}
    (h1 : p input = .Done mid a) (h2 : q a mid = .Done rest b) : pbind p q input = .Done rest b := by
  unfold pbind; simp only [h1, h2]

/-- Computation rule for pbind when the continuation errs. -/
theorem pbind_err2 {α β : Type} {p : Parser α} {q : α → Parser β} {input mid : List Byte} {a : α} {e : ErrKind}
    (h1 : p input = .Done mid a) (h2 : q a mid = .Error e) : pbind p q input = .Error e := by
  unfold pbind; simp only [h1, h2]

/-- Computation rule for pbind when the continuation is Incomplete with a size: the size is shifted by the bytes consumed. -/
theorem pbind_inc2 {α β : Type} {p : Parser α} {q : α → Parser β} {input mid : List Byte} {a : α} {j : Nat}
    (h1 : p input = .Done mid a) (h2 : q a mid = .Incomplete (.Size j)) :
    pbind p q input = .Incomplete (.Size (j + (input.length - mid.length))) := by
  unfold pbind; simp only [h1, h2]

/-- Computation rule for pbind when the continuation is Incomplete with unknown size. -/
theorem pbind_incU2 {α β : Type} {p : Parser α} {q : α → Parser β} {input mid : List Byte} {a : α}
    (h1 : p input = .Done mid a) (h2 : q a mid = .Incomplete .Unknown) :
    pbind p q input = .Incomplete .Unknown := by
  unfold pbind; simp only [h1, h2]

/-- Computation rule for pmap on success. -/
theorem pmap_eval {α β : Type} {p : Parser α} {f : α → β} {input rest : List Byte} {a : α}
    (h : p input = .Done rest a) : pmap p f input = .Done rest (f a) := by
  unfold pmap; simp only [h]

/-- Computation rule for pmap on Error. -/
theorem pmap_err {α β : Type} {p : Parser α} {f : α → β} {input : List Byte} {e : ErrKind}
    (h : p input = .Error e) : pmap p f input = .Error e := by
  unfold pmap; simp only [h]

/-- Computation rule for pmap on Incomplete. -/
theorem pmap_inc {α β : Type} {p : Parser α} {f : α → β} {input : List Byte} {n : Needed}
    (h : p input = .Incomplete n) : pmap p f input = .Incomplete n := by
  unfold pmap; simp only [h]

/-- Computation rule for pmapRes when both the parser and the conversion succeed. -/
theorem pmapRes_eval {α β : Type} {p : Parser α} {f : α → Option β} {input rest : List Byte} {a : α} {b : β}
    (h1 : p input = .Done rest a) (h2 : f a = some b) : pmapRes p f input = .Done rest b := by
  unfold pmapRes; simp only [h1, h2]

/-- Computation rule for pmapRes when the conversion fails. -/
theorem pmapRes_fail {α β : Type} {p : Parser α} {f : α → Option β} {input rest : List Byte} {a : α}
    (h1 : p input = .Done rest a) (h2 : f a = none) : pmapRes p f input = .Error .MapRes := by
  unfold pmapRes; simp only [h1, h2]

/-- Computation rule for pmapRes on parser Error. -/
theorem pmapRes_err {α β : Type} {p : Parser α} {f : α → Option β} {input : List Byte} {e : ErrKind}
    (h : p input = .Error e) : pmapRes p f input = .Error e := by
  unfold pmapRes; simp only [h]

/-- Computation rule for pmapRes on parser Incomplete. -/
theorem pmapRes_inc {α β : Type} {p : Parser α} {f : α → Option β} {input : List Byte} {n : Needed}
    (h : p input = .Incomplete n) : pmapRes p f input = .Incomplete n := by
  unfold pmapRes; simp only [h]

/-- Inversion for pchar successes: exactly the expected byte was consumed. -/
theorem pchar_done {c a : Byte} {input rest : List Byte}
    (h : pchar c input = .Done rest a) : input = c :: rest ∧ a = c := by
  cases input with
  | nil => exact NomResult.noConfusion h
  | cons b t =>
    simp only [pchar] at h
    by_cases hb : b = c
    · rw [if_pos hb] at h
      injection h with h1 h2
      subst_vars
      exact ⟨rfl, rfl⟩
    · rw [if_neg hb] at h
      exact NomResult.noConfusion h

/-- Inversion for ptag successes: the input starts with the tag. -/
theorem ptag_done {t input rest v : List Byte}
    (h : ptag t input = .Done rest v) : input = t ++ rest ∧ v = t := by
  unfold ptag at h
  by_cases h1 : input.take (min t.length input.length) = t.take (min t.length input.length)
  · rw [if_pos h1] at h
    by_cases h2 : input.length < t.length
    · rw [if_pos h2] at h; exact NomResult.noConfusion h
    · rw [if_neg h2] at h
      injection h with h3 h4
      subst h3; subst h4
      refine ⟨?_, rfl⟩
      have hle : t.length ≤ input.length := Nat.le_of_not_lt h2
      rw [Nat.min_eq_left hle, List.take_length] at h1
      conv_lhs => rw [← List.take_append_drop t.length input]
      rw [h1]
  · rw [if_neg h1] at h; exact NomResult.noConfusion h

/-- Inversion for ptake successes. -/
theorem ptake_done {n : Nat} {input rest v : List Byte}
    (h : ptake n input = .Done rest v) : input = v ++ rest ∧ v.length = n := by
  unfold ptake at h
  by_cases h1 : input.length < n
  · rw [if_pos h1] at h; exact NomResult.noConfusion h
  · rw [if_neg h1] at h
    injection h with h2 h3
    subst h2; subst h3
    constructor
    · exact (List.take_append_drop n input).symm
    · rw [List.length_take]
      exact Nat.min_eq_left (Nat.le_of_not_lt h1)

/-- Inversion for isNot successes: the value is the maximal forbidden-free prefix; it is non-empty on non-empty input, and a non-empty remainder starts with a forbidden byte. -/
theorem isNot_done {bad input rest v : List Byte}
    (h : isNot bad input = .Done rest v) :
    input = v ++ rest ∧ (∀ b ∈ v, bad.contains b = false) ∧ (input ≠ [] → v ≠ []) ∧
      (rest ≠ [] → ∃ b t2, rest = b :: t2 ∧ bad.contains b = true) := by
  unfold isNot at h
  by_cases h1 : input.takeWhile (fun b => !(bad.contains b)) = []
  · rw [if_pos h1] at h
    by_cases h2 : input = []
    · rw [if_pos h2] at h
      injection h with h3 h4
      subst_vars
      refine ⟨rfl, ?_, fun hne => absurd rfl hne, fun hne => absurd rfl hne⟩
      intro b hb; exact absurd hb (List.not_mem_nil b)
    · rw [if_neg h2] at h
      exact NomResult.noConfusion h
  · rw [if_neg h1] at h
    injection h with h3 h4
    subst h3; subst h4
    refine ⟨?_, ?_, ?_, ?_⟩
    · rw [drop_takeWhile]
      exact (List.takeWhile_append_dropWhile ..).symm
    · intro b hb
      have hmem := mem_takeWhile hb
      simpa using hmem
    · intro _; exact h1
    · intro hne
      rw [drop_takeWhile] at hne ⊢
      cases hd : input.dropWhile (fun b => !(bad.contains b)) with
      | nil => exact absurd hd hne
      | cons b t2 =>
        refine ⟨b, t2, rfl, ?_⟩
        have hh := dropWhile_head hd
        simpa using hh

/-- Inversion for pmap successes. -/
theorem pmap_done {α β : Type} {p : Parser α} {f : α → β} {input rest : List Byte} {b : β}
    (h : pmap p f input = .Done rest b) : ∃ a, p input = .Done rest a ∧ b = f a := by
  cases hp : p input with
  | Done r a =>
    rw [pmap_eval hp] at h
    injection h with h1 h2
    exact ⟨a, by rw [← h1], h2.symm⟩
  | Error e => rw [pmap_err hp] at h; exact NomResult.noConfusion h
  | Incomplete n => rw [pmap_inc hp] at h; exact NomResult.noConfusion h

/-- Inversion for pmapRes successes. -/
theorem pmapRes_done {α β : Type} {p : Parser α} {f : α → Option β} {input rest : List Byte} {b : β}
    (h : pmapRes p f input = .Done rest b) : ∃ a, p input = .Done rest a ∧ f a = some b := by
  cases hp : p input with
  | Done r a =>
    cases hf : f a with
    | some b2 =>
      rw [pmapRes_eval hp hf] at h
      injection h with h1 h2
      exact ⟨a, by rw [← h1], by rw [hf, h2]⟩
    | none => rw [pmapRes_fail hp hf] at h; exact NomResult.noConfusion h
  | Error e => rw [pmapRes_err hp] at h; exact NomResult.noConfusion h
  | Incomplete n => rw [pmapRes_inc hp] at h; exact NomResult.noConfusion h

/-- Inversion for pbind successes. -/
theorem pbind_done {α β : Type} {p : Parser α} {q : α → Parser β} {input rest : List Byte} {b : β}
    (h : pbind p q input = .Done rest b) :
    ∃ mid a, p input = .Done mid a ∧ q a mid = .Done rest b := by
  cases hp : p input with
  | Done mid a =>
    cases hq : q a mid with
    | Done r2 b2 =>
      rw [pbind_done2 hp hq] at h
      injection h with h1 h2
      subst h1; subst h2
      exact ⟨mid, a, rfl, hq⟩
    | Error e => rw [pbind_err2 hp hq] at h; exact NomResult.noConfusion h
    | Incomplete n =>
      cases n with
      | Unknown => rw [pbind_incU2 hp hq] at h; exact NomResult.noConfusion h
      | Size j => rw [pbind_inc2 hp hq] at h; exact NomResult.noConfusion h
  | Error e => rw [pbind_err1 hp] at h; exact NomResult.noConfusion h
  | Incomplete n => rw [pbind_inc1 hp] at h; exact NomResult.noConfusion h

/-- Inversion for palt successes: some alternative succeeded with the same result. -/
theorem palt_done {α : Type} : ∀ {ps : List (Parser α)} {input rest : List Byte} {a : α},
    palt ps input = .Done rest a → ∃ p, p ∈ ps ∧ p input = .Done rest a
| [], _, _, _, h => by exact NomResult.noConfusion h
| p :: ps, input, rest, a, h => by
  cases hp : p input with
  | Done r2 a2 =>
    rw [palt_cons_done hp] at h
    injection h with h1 h2
    subst h1; subst h2
    exact ⟨p, List.mem_cons_self p ps, hp⟩
  | Error e =>
    rw [palt_cons_err hp] at h
    obtain ⟨p2, hmem, hp2⟩ := palt_done h
    exact ⟨p2, List.mem_cons_of_mem p hmem, hp2⟩
  | Incomplete n =>
    rw [palt_cons_inc hp] at h
    exact NomResult.noConfusion h

/-- Forward evaluation of isNot when the run is stopped by a forbidden byte. -/
theorem isNot_run {bad s : List Byte} {x : Byte} {r : List Byte}
    (hs : s ≠ []) (hall : ∀ b ∈ s, bad.contains b = false) (hx : bad.contains x = true) :
    isNot bad (s ++ x :: r) = .Done (x :: r) s := by
  unfold isNot
  have hpre : (s ++ x :: r).takeWhile (fun b => !(bad.contains b)) = s := by
    apply takeWhile_stop
    · intro b hb
      show (!(bad.contains b)) = true
      rw [hall b hb, Bool.not_false]
    · show (!(bad.contains x)) = false
      rw [hx, Bool.not_true]
  rw [hpre, if_neg hs, List.drop_left]

/-- Forward evaluation of isNot when no forbidden byte occurs: the whole input is consumed. -/
theorem isNot_all {bad s : List Byte}
    (hs : s ≠ []) (hall : ∀ b ∈ s, bad.contains b = false) :
    isNot bad s = .Done [] s := by
  unfold isNot
  have hpre : s.takeWhile (fun b => !(bad.contains b)) = s := by
    apply takeWhile_all
    intro b hb
    show (!(bad.contains b)) = true
    rw [hall b hb, Bool.not_false]
  rw [hpre, if_neg hs, List.drop_length]

/-- Forward evaluation of isNot when the first byte is forbidden. -/
theorem isNot_err {bad : List Byte} {x : Byte} {r : List Byte}
    (hx : bad.contains x = true) : isNot bad (x :: r) = .Error .IsNot := by
  unfold isNot
  have hpre : (x :: r).takeWhile (fun b => !(bad.contains b)) = [] := by
    simp only [List.takeWhile, hx, Bool.not_true]
  rw [hpre, if_pos rfl, if_neg (by simp)]

/-- Inversion for fromUtf8: success returns the same bytes and certifies validity. -/
theorem fromUtf8_some {v s : List Byte} (h : fromUtf8 v = some s) : s = v ∧ utf8Valid v = true := by
  unfold fromUtf8 at h
  by_cases hv : utf8Valid v = true
  · rw [if_pos hv] at h
    injection h with h1
    exact ⟨h1.symm, hv⟩
  · rw [if_neg hv] at h
    exact Option.noConfusion h

/-- Forward evaluation of fromUtf8 on valid input. -/
theorem fromUtf8_eval {v : List Byte} (hv : utf8Valid v = true) : fromUtf8 v = some v := by
  unfold fromUtf8
  rw [if_pos hv]

/-- Membership in a one-element byte list through contains. -/
theorem contains_single {x b : Byte} : (([x] : List Byte).contains b = true) ↔ b = x := by
  constructor
  · intro h
    have hm : b ∈ ([x] : List Byte) := by
      simpa using h
    simpa using hm
  · intro h
    subst h
    simp

/-- Inversion for Directive.fromStr: only one-character strings dispatch. -/
theorem fromStr_some {s : List Byte} {d : Directive} (h : Directive.fromStr s = some d) :
    ∃ c, s = [c] ∧ Directive.fromChar c = some d := by
  rcases s with _ | ⟨c, t⟩
  · exact Option.noConfusion h
  rcases t with _ | ⟨c2, t2⟩
  · exact ⟨c, rfl, h⟩
  · exact Option.noConfusion h

/-- Suffix property for pchar. -/
theorem pchar_suffix (c : Byte) : pSuffix (pchar c) := by
  intro input rest a h
  obtain ⟨h1, _⟩ := pchar_done h
  exact ⟨[c], h1.symm⟩

/-- Suffix property for ptag. -/
theorem ptag_suffix (t : List Byte) : pSuffix (ptag t) := by
  intro input rest a h
  obtain ⟨h1, _⟩ := ptag_done h
  exact ⟨t, h1.symm⟩

/-- Suffix property for ptake. -/
theorem ptake_suffix (n : Nat) : pSuffix (ptake n) := by
  intro input rest a h
  obtain ⟨h1, _⟩ := ptake_done h
  exact ⟨a, h1.symm⟩

/-- Suffix property for isNot. -/
theorem isNot_suffix (bad : List Byte) : pSuffix (isNot bad) := by
  intro input rest a h
  obtain ⟨h1, _, _, _⟩ := isNot_done h
  exact ⟨a, h1.symm⟩

/-- pmap preserves the suffix property. -/
theorem pmap_suffix {α β : Type} {p : Parser α} {f : α → β} (hp : pSuffix p) : pSuffix (pmap p f) := by
  intro input rest b h
  obtain ⟨a, hpa, _⟩ := pmap_done h
  exact hp input rest a hpa

/-- pmapRes preserves the suffix property. -/
theorem pmapRes_suffix {α β : Type} {p : Parser α} {f : α → Option β} (hp : pSuffix p) : pSuffix (pmapRes p f) := by
  intro input rest b h
  obtain ⟨a, hpa, _⟩ := pmapRes_done h
  exact hp input rest a hpa

/-- pbind preserves the suffix property. -/
theorem pbind_suffix {α β : Type} {p : Parser α} {q : α → Parser β}
    (hp : pSuffix p) (hq : ∀ a, pSuffix (q a)) : pSuffix (pbind p q) := by
  intro input rest b h
  obtain ⟨mid, a, h1, h2⟩ := pbind_done h
  obtain ⟨pre1, hpre1⟩ := hp input mid a h1
  obtain ⟨pre2, hpre2⟩ := hq a mid rest b h2
  exact ⟨pre1 ++ pre2, by rw [List.append_assoc, hpre2, hpre1]⟩

/-- palt preserves the suffix property. -/
theorem palt_suffix {α : Type} {ps : List (Parser α)}
    (hps : ∀ p ∈ ps, pSuffix p) : pSuffix (palt ps) := by
  intro input rest a h
  obtain ⟨p, hmem, hp⟩ := palt_done h
  exact hps p hmem input rest a hp

/-- Suffix property for parens. -/
theorem parens_suffix : pSuffix parens := by
  unfold parens delimited
  exact pbind_suffix (pchar_suffix 123)
    (fun _ => pbind_suffix (isNot_suffix [125]) (fun v => pmap_suffix (pchar_suffix 125)))

/-- Suffix property for terminated parens followed by any suffix-respecting marker. -/
theorem terminated_suffix {α β : Type} {p1 : Parser α} {p2 : Parser β}
    (h1 : pSuffix p1) (h2 : pSuffix p2) : pSuffix (terminated p1 p2) := by
  unfold terminated
  exact pbind_suffix h1 (fun a => pmap_suffix h2)

/-- Suffix property for peerIpParser. -/
theorem peerIp_suffix : pSuffix peerIpParser := by
  unfold peerIpParser
  exact pbind_suffix (pchar_suffix 123)
    (fun _ => pbind_suffix (pchar_suffix 99)
      (fun _ => pbind_suffix (pchar_suffix 125)
        (fun _ => pmap_suffix (pchar_suffix 97))))

/-- Suffix property for reqCookieParser. -/
theorem reqCookie_suffix : pSuffix reqCookieParser := by
  unfold reqCookieParser
  exact pmap_suffix (pmapRes_suffix (terminated_suffix parens_suffix (pchar_suffix 67)))

/-- Suffix property for envVarParser. -/
theorem envVar_suffix : pSuffix envVarParser := by
  unfold envVarParser
  exact pmap_suffix (pmapRes_suffix (terminated_suffix parens_suffix (pchar_suffix 101)))

/-- Suffix property for reqHeaderParser. -/
theorem reqHeader_suffix : pSuffix reqHeaderParser := by
  unfold reqHeaderParser
  exact pmap_suffix (pmapRes_suffix (terminated_suffix parens_suffix (pchar_suffix 105)))

/-- Suffix property for noteParser. -/
theorem note_suffix : pSuffix noteParser := by
  unfold noteParser
  exact pmap_suffix (pmapRes_suffix (terminated_suffix parens_suffix (pchar_suffix 110)))

/-- Suffix property for resHeaderParser. -/
theorem resHeader_suffix : pSuffix resHeaderParser := by
  unfold resHeaderParser
  exact pmap_suffix (pmapRes_suffix (terminated_suffix parens_suffix (pchar_suffix 111)))

/-- Suffix property for portTypeParser. -/
theorem portType_suffix : pSuffix portTypeParser := by
  intro input rest a h
  have hs : pSuffix (palt [portTypeParserC, portTypeParserL, portTypeParserR]) := by
    apply palt_suffix
    intro p hmem
    simp only [List.mem_cons, List.not_mem_nil, or_false] at hmem
    rcases hmem with rfl | rfl | rfl
    · unfold portTypeParserC; exact pmap_suffix (ptag_suffix (ascii "canonical"))
    · unfold portTypeParserL; exact pmap_suffix (ptag_suffix (ascii "local"))
    · unfold portTypeParserR; exact pmap_suffix (ptag_suffix (ascii "remote"))
  exact hs input rest a h

/-- Suffix property for customPortParser. -/
theorem customPort_suffix : pSuffix customPortParser := by
  unfold customPortParser
  exact pbind_suffix (pchar_suffix 123)
    (fun _ => pbind_suffix portType_suffix
      (fun p => pbind_suffix (pchar_suffix 125)
        (fun _ => pmap_suffix (pchar_suffix 112))))

/-- Suffix property for pidTypeParser. -/
theorem pidType_suffix : pSuffix pidTypeParser := by
  intro input rest a h
  have hs : pSuffix (palt [pidTypeParserP, pidTypeParserT, pidTypeParserH]) := by
    apply palt_suffix
    intro p hmem
    simp only [List.mem_cons, List.not_mem_nil, or_false] at hmem
    rcases hmem with rfl | rfl | rfl
    · unfold pidTypeParserP; exact pmap_suffix (ptag_suffix (ascii "pid"))
    · unfold pidTypeParserT; exact pmap_suffix (ptag_suffix (ascii "tid"))
    · unfold pidTypeParserH; exact pmap_suffix (ptag_suffix (ascii "hextid"))
  exact hs input rest a h

/-- Suffix property for customPidParser. -/
theorem customPid_suffix : pSuffix customPidParser := by
  unfold customPidParser
  exact pbind_suffix (pchar_suffix 123)
    (fun _ => pbind_suffix pidType_suffix
      (fun p => pbind_suffix (pchar_suffix 125)
        (fun _ => pmap_suffix (pchar_suffix 80))))

/-- Suffix property for finalStatusParser. -/
theorem finalStatus_suffix : pSuffix finalStatusParser := by
  unfold finalStatusParser
  exact pbind_suffix (pchar_suffix 62) (fun _ => pmap_suffix (pchar_suffix 115))

/-- Suffix property for reqTrailerParser. -/
theorem reqTrailer_suffix : pSuffix reqTrailerParser := by
  unfold reqTrailerParser
  exact pmap_suffix (pmapRes_suffix (terminated_suffix parens_suffix (ptag_suffix (ascii "^ti"))))

/-- Suffix property for resTrailerParser. -/
theorem resTrailer_suffix : pSuffix resTrailerParser := by
  unfold resTrailerParser
  exact pmap_suffix (pmapRes_suffix (terminated_suffix parens_suffix (ptag_suffix (ascii "^to"))))

/-- Suffix property for takeStr. -/
theorem takeStr_suffix (n : Nat) : pSuffix (takeStr n) := by
  unfold takeStr
  exact pmapRes_suffix (ptake_suffix n)

/-- Suffix property for the dispatch-table fallback branch. -/
theorem lastBranch_suffix : pSuffix (pmapRes (takeStr 1) Directive.fromStr) :=
  pmapRes_suffix (takeStr_suffix 1)

/-- Suffix property of the big alternation inside directiveParser. -/
theorem innerAlt_suffix : pSuffix (palt [peerIpParser, reqCookieParser, envVarParser, reqHeaderParser,
    noteParser, resHeaderParser, customPortParser, customPidParser, finalStatusParser,
    reqTrailerParser, resTrailerParser, pmapRes (takeStr 1) Directive.fromStr]) := by
  apply palt_suffix
  intro p hmem
  simp only [List.mem_cons, List.not_mem_nil, or_false] at hmem
  rcases hmem with rfl | rfl | rfl | rfl | rfl | rfl | rfl | rfl | rfl | rfl | rfl | rfl
  · exact peerIp_suffix
  · exact reqCookie_suffix
  · exact envVar_suffix
  · exact reqHeader_suffix
  · exact note_suffix
  · exact resHeader_suffix
  · exact customPort_suffix
  · exact customPid_suffix
  · exact finalStatus_suffix
  · exact reqTrailer_suffix
  · exact resTrailer_suffix
  · exact lastBranch_suffix

/-- A successful directive parse consumed the percent marker and a suffix-respecting tail. -/
theorem directive_done_cons {input rest : List Byte} {d : Directive}
    (h : directiveParser input = .Done rest d) :
    ∃ mid, input = 37 :: mid ∧ ∃ pre, pre ++ rest = mid := by
  unfold directiveParser preceded at h
  obtain ⟨mid, a, h1, h2⟩ := pbind_done h
  obtain ⟨hc, _⟩ := pchar_done h1
  exact ⟨mid, hc, innerAlt_suffix mid rest d h2⟩

/-- Suffix property for directiveParser. -/
theorem directive_suffix : pSuffix directiveParser := by
  intro input rest d h
  obtain ⟨mid, hmid, pre, hpre⟩ := directive_done_cons h
  exact ⟨37 :: pre, by rw [hmid, ← hpre]; rfl⟩

/-- Suffix property for constantParser. -/
theorem constant_suffix : pSuffix constantParser := by
  unfold constantParser
  exact pmap_suffix (pmapRes_suffix (isNot_suffix [37]))

/-- Suffix property for the driver child alt!(directive_parser | constant_parser). -/
theorem dirOrConst_suffix : pSuffix dirOrConst := by
  intro input rest d h
  have hs : pSuffix (palt [directiveParser, constantParser]) := by
    apply palt_suffix
    intro p hmem
    simp only [List.mem_cons, List.not_mem_nil, or_false] at hmem
    rcases hmem with rfl | rfl
    · exact directive_suffix
    · exact constant_suffix
  exact hs input rest d h

/-- Every directive the dispatch table can produce has trivial or percent-sign Literal payload and no text parameter. -/
theorem fromChar_shape {c : Byte} {d : Directive} (h : Directive.fromChar c = some d) :
    textParamNE d ∧ (∀ s, d = Directive.Literal s → s = [37]) := by
  by_cases e1 : c = 37
  · rw [e1] at h
    have h3 : some (Directive.Literal [37]) = some d := h
    injection h3 with h4
    subst h4
    refine ⟨True.intro, ?_⟩
    intro s hs
    injection hs with h5
    exact h5.symm
  by_cases e2 : c = 97
  · rw [e2] at h
    have h3 : some Directive.ClientIP = some d := h
    injection h3 with h4
    subst h4
    exact ⟨True.intro, fun s hs => Directive.noConfusion hs⟩
  by_cases e3 : c = 65
  · rw [e3] at h
    have h3 : some Directive.LocalIP = some d := h
    injection h3 with h4
    subst h4
    exact ⟨True.intro, fun s hs => Directive.noConfusion hs⟩
  by_cases e4 : c = 66
  · rw [e4] at h
    have h3 : some Directive.ResSizeExcludingHeaders = some d := h
    injection h3 with h4
    subst h4
    exact ⟨True.intro, fun s hs => Directive.noConfusion hs⟩
  by_cases e5 : c = 98
  · rw [e5] at h
    have h3 : some Directive.ResSize = some d := h
    injection h3 with h4
    subst h4
    exact ⟨True.intro, fun s hs => Directive.noConfusion hs⟩
  by_cases e6 : c = 68
  · rw [e6] at h
    have h3 : some Directive.ReqTime = some d := h
    injection h3 with h4
    subst h4
    exact ⟨True.intro, fun s hs => Directive.noConfusion hs⟩
  by_cases e7 : c = 102
  · rw [e7] at h
    have h3 : some Directive.Filename = some d := h
    injection h3 with h4
    subst h4
    exact ⟨True.intro, fun s hs => Directive.noConfusion hs⟩
  by_cases e8 : c = 104
  · rw [e8] at h
    have h3 : some Directive.Hostname = some d := h
    injection h3 with h4
    subst h4
    exact ⟨True.intro, fun s hs => Directive.noConfusion hs⟩
  by_cases e9 : c = 72
  · rw [e9] at h
    have h3 : some Directive.Protocol = some d := h
    injection h3 with h4
    subst h4
    exact ⟨True.intro, fun s hs => Directive.noConfusion hs⟩
  by_cases e10 : c = 107
  · rw [e10] at h
    have h3 : some Directive.KeepAlive = some d := h
    injection h3 with h4
    subst h4
    exact ⟨True.intro, fun s hs => Directive.noConfusion hs⟩
  by_cases e11 : c = 108
  · rw [e11] at h
    have h3 : some Directive.Logname = some d := h
    injection h3 with h4
    subst h4
    exact ⟨True.intro, fun s hs => Directive.noConfusion hs⟩
  by_cases e12 : c = 76
  · rw [e12] at h
    have h3 : some Directive.ErrID = some d := h
    injection h3 with h4
    subst h4
    exact ⟨True.intro, fun s hs => Directive.noConfusion hs⟩
  by_cases e13 : c = 109
  · rw [e13] at h
    have h3 : some Directive.Method = some d := h
    injection h3 with h4
    subst h4
    exact ⟨True.intro, fun s hs => Directive.noConfusion hs⟩
  by_cases e14 : c = 112
  · rw [e14] at h
    have h3 : some (Directive.Port PortType.Canonical) = some d := h
    injection h3 with h4
    subst h4
    exact ⟨True.intro, fun s hs => Directive.noConfusion hs⟩
  by_cases e15 : c = 80
  · rw [e15] at h
    have h3 : some (Directive.PID PIDType.PID) = some d := h
    injection h3 with h4
    subst h4
    exact ⟨True.intro, fun s hs => Directive.noConfusion hs⟩
  by_cases e16 : c = 113
  · rw [e16] at h
    have h3 : some Directive.Query = some d := h
    injection h3 with h4
    subst h4
    exact ⟨True.intro, fun s hs => Directive.noConfusion hs⟩
  by_cases e17 : c = 114
  · rw [e17] at h
    have h3 : some Directive.ReqFirstLine = some d := h
    injection h3 with h4
    subst h4
    exact ⟨True.intro, fun s hs => Directive.noConfusion hs⟩
  by_cases e18 : c = 82
  · rw [e18] at h
    have h3 : some Directive.ResHandler = some d := h
    injection h3 with h4
    subst h4
    exact ⟨True.intro, fun s hs => Directive.noConfusion hs⟩
  by_cases e19 : c = 115
  · rw [e19] at h
    have h3 : some Directive.Status = some d := h
    injection h3 with h4
    subst h4
    exact ⟨True.intro, fun s hs => Directive.noConfusion hs⟩
  by_cases e20 : c = 116
  · rw [e20] at h
    have h3 : some Directive.ReqRecvTime = some d := h
    injection h3 with h4
    subst h4
    exact ⟨True.intro, fun s hs => Directive.noConfusion hs⟩
  by_cases e21 : c = 84
  · rw [e21] at h
    have h3 : some Directive.ReqServeTime = some d := h
    injection h3 with h4
    subst h4
    exact ⟨True.intro, fun s hs => Directive.noConfusion hs⟩
  by_cases e22 : c = 117
  · rw [e22] at h
    have h3 : some Directive.User = some d := h
    injection h3 with h4
    subst h4
    exact ⟨True.intro, fun s hs => Directive.noConfusion hs⟩
  by_cases e23 : c = 85
  · rw [e23] at h
    have h3 : some Directive.Path = some d := h
    injection h3 with h4
    subst h4
    exact ⟨True.intro, fun s hs => Directive.noConfusion hs⟩
  by_cases e24 : c = 118
  · rw [e24] at h
    have h3 : some Directive.ServerName = some d := h
    injection h3 with h4
    subst h4
    exact ⟨True.intro, fun s hs => Directive.noConfusion hs⟩
  by_cases e25 : c = 86
  · rw [e25] at h
    have h3 : some Directive.CanonicalServerName = some d := h
    injection h3 with h4
    subst h4
    exact ⟨True.intro, fun s hs => Directive.noConfusion hs⟩
  by_cases e26 : c = 88
  · rw [e26] at h
    have h3 : some Directive.ResStatus = some d := h
    injection h3 with h4
    subst h4
    exact ⟨True.intro, fun s hs => Directive.noConfusion hs⟩
  by_cases e27 : c = 73
  · rw [e27] at h
    have h3 : some Directive.SizeReceived = some d := h
    injection h3 with h4
    subst h4
    exact ⟨True.intro, fun s hs => Directive.noConfusion hs⟩
  by_cases e28 : c = 79
  · rw [e28] at h
    have h3 : some Directive.SizeSent = some d := h
    injection h3 with h4
    subst h4
    exact ⟨True.intro, fun s hs => Directive.noConfusion hs⟩
  by_cases e29 : c = 83
  · rw [e29] at h
    have h3 : some Directive.Size = some d := h
    injection h3 with h4
    subst h4
    exact ⟨True.intro, fun s hs => Directive.noConfusion hs⟩
  exfalso
  have hn : Directive.fromChar c = none := by
    unfold Directive.fromChar
    rw [if_neg e1, if_neg e2, if_neg e3, if_neg e4, if_neg e5, if_neg e6, if_neg e7, if_neg e8, if_neg e9, if_neg e10, if_neg e11, if_neg e12, if_neg e13, if_neg e14, if_neg e15, if_neg e16, if_neg e17, if_neg e18, if_neg e19, if_neg e20, if_neg e21, if_neg e22, if_neg e23, if_neg e24, if_neg e25, if_neg e26, if_neg e27, if_neg e28, if_neg e29]
  rw [hn] at h
  exact Option.noConfusion h

/-- Inversion for parens: the parameter is non-empty and brace-free, and the input decomposes around the braces. -/
theorem parens_done_struct {input rest v : List Byte}
    (h : parens input = .Done rest v) :
    v ≠ [] ∧ (∀ b ∈ v, b ≠ 125) ∧ input = 123 :: (v ++ 125 :: rest) := by
  unfold parens delimited at h
  obtain ⟨mid1, a1, h1, h2⟩ := pbind_done h
  obtain ⟨mid2, v2, h3, h4⟩ := pbind_done h2
  obtain ⟨a3, h5, h6⟩ := pmap_done h4
  have hv : v = v2 := h6
  subst hv
  obtain ⟨hin1, _⟩ := pchar_done h1
  obtain ⟨hin2, _⟩ := pchar_done h5
  obtain ⟨happ, hnotbad, hne, _⟩ := isNot_done h3
  have hmid1ne : mid1 ≠ [] := by
    rw [happ, hin2]
    intro hcontra
    rcases List.append_eq_nil.mp hcontra with ⟨_, h8⟩
    exact List.noConfusion h8
  refine ⟨hne hmid1ne, ?_, ?_⟩
  · intro b hb heq
    have hf : ([125] : List Byte).contains b = false := hnotbad b hb
    rw [heq] at hf
    have ht : ([125] : List Byte).contains 125 = true := contains_single.mpr rfl
    exact Bool.noConfusion (ht.symm.trans hf)
  · rw [hin1, happ, hin2]

/-- Inversion for a braced parameter followed by any marker: the payload is a non-empty brace-free run. -/
theorem terminated_parens_done {α : Type} {m : Parser α} {input rest v : List Byte}
    (h : terminated parens m input = .Done rest v) :
    v ≠ [] ∧ (∀ b ∈ v, b ≠ 125) := by
  unfold terminated at h
  obtain ⟨mid, a, h1, h2⟩ := pbind_done h
  obtain ⟨a2, h3, h4⟩ := pmap_done h2
  have hv : v = a := h4
  subst hv
  obtain ⟨hne, hnb, _⟩ := parens_done_struct h1
  exact ⟨hne, hnb⟩

/-- Value shape of peerIpParser successes. -/
theorem peerIp_done_shape {input rest : List Byte} {d : Directive}
    (h : peerIpParser input = .Done rest d) : d = Directive.PeerIP := by
  unfold peerIpParser at h
  obtain ⟨m1, a1, h1, h2⟩ := pbind_done h
  obtain ⟨m2, a2, h3, h4⟩ := pbind_done h2
  obtain ⟨m3, a3, h5, h6⟩ := pbind_done h4
  obtain ⟨a4, h7, h8⟩ := pmap_done h6
  exact h8

/-- Value shape of reqCookieParser successes. -/
theorem cookie_done_shape {input rest : List Byte} {d : Directive}
    (h : reqCookieParser input = .Done rest d) : ∃ s, d = Directive.Cookie s ∧ s ≠ [] := by
  unfold reqCookieParser at h
  obtain ⟨s0, h1, h2⟩ := pmap_done h
  obtain ⟨v, h3, h4⟩ := pmapRes_done h1
  obtain ⟨hsv, _⟩ := fromUtf8_some h4
  obtain ⟨hne, _⟩ := terminated_parens_done h3
  exact ⟨s0, h2, by rw [hsv]; exact hne⟩

/-- Value shape of envVarParser successes. -/
theorem envVar_done_shape {input rest : List Byte} {d : Directive}
    (h : envVarParser input = .Done rest d) : ∃ s, d = Directive.EnvVar s ∧ s ≠ [] := by
  unfold envVarParser at h
  obtain ⟨s0, h1, h2⟩ := pmap_done h
  obtain ⟨v, h3, h4⟩ := pmapRes_done h1
  obtain ⟨hsv, _⟩ := fromUtf8_some h4
  obtain ⟨hne, _⟩ := terminated_parens_done h3
  exact ⟨s0, h2, by rw [hsv]; exact hne⟩

/-- Value shape of reqHeaderParser successes. -/
theorem reqHeader_done_shape {input rest : List Byte} {d : Directive}
    (h : reqHeaderParser input = .Done rest d) : ∃ s, d = Directive.ReqHeader s ∧ s ≠ [] := by
  unfold reqHeaderParser at h
  obtain ⟨s0, h1, h2⟩ := pmap_done h
  obtain ⟨v, h3, h4⟩ := pmapRes_done h1
  obtain ⟨hsv, _⟩ := fromUtf8_some h4
  obtain ⟨hne, _⟩ := terminated_parens_done h3
  exact ⟨s0, h2, by rw [hsv]; exact hne⟩

/-- Value shape of noteParser successes. -/
theorem note_done_shape {input rest : List Byte} {d : Directive}
    (h : noteParser input = .Done rest d) : ∃ s, d = Directive.Note s ∧ s ≠ [] := by
  unfold noteParser at h
  obtain ⟨s0, h1, h2⟩ := pmap_done h
  obtain ⟨v, h3, h4⟩ := pmapRes_done h1
  obtain ⟨hsv, _⟩ := fromUtf8_some h4
  obtain ⟨hne, _⟩ := terminated_parens_done h3
  exact ⟨s0, h2, by rw [hsv]; exact hne⟩

/-- Value shape of resHeaderParser successes. -/
theorem resHeader_done_shape {input rest : List Byte} {d : Directive}
    (h : resHeaderParser input = .Done rest d) : ∃ s, d = Directive.ResHeader s ∧ s ≠ [] := by
  unfold resHeaderParser at h
  obtain ⟨s0, h1, h2⟩ := pmap_done h
  obtain ⟨v, h3, h4⟩ := pmapRes_done h1
  obtain ⟨hsv, _⟩ := fromUtf8_some h4
  obtain ⟨hne, _⟩ := terminated_parens_done h3
  exact ⟨s0, h2, by rw [hsv]; exact hne⟩

/-- Value shape of reqTrailerParser successes. -/
theorem reqTrailer_done_shape {input rest : List Byte} {d : Directive}
    (h : reqTrailerParser input = .Done rest d) : ∃ s, d = Directive.ReqTrailer s ∧ s ≠ [] := by
  unfold reqTrailerParser at h
  obtain ⟨s0, h1, h2⟩ := pmap_done h
  obtain ⟨v, h3, h4⟩ := pmapRes_done h1
  obtain ⟨hsv, _⟩ := fromUtf8_some h4
  obtain ⟨hne, _⟩ := terminated_parens_done h3
  exact ⟨s0, h2, by rw [hsv]; exact hne⟩

/-- Value shape of resTrailerParser successes. -/
theorem resTrailer_done_shape {input rest : List Byte} {d : Directive}
    (h : resTrailerParser input = .Done rest d) : ∃ s, d = Directive.ResTrailer s ∧ s ≠ [] := by
  unfold resTrailerParser at h
  obtain ⟨s0, h1, h2⟩ := pmap_done h
  obtain ⟨v, h3, h4⟩ := pmapRes_done h1
  obtain ⟨hsv, _⟩ := fromUtf8_some h4
  obtain ⟨hne, _⟩ := terminated_parens_done h3
  exact ⟨s0, h2, by rw [hsv]; exact hne⟩

/-- Value shape of customPortParser successes. -/
theorem customPort_done_shape {input rest : List Byte} {d : Directive}
    (h : customPortParser input = .Done rest d) : ∃ p, d = Directive.Port p := by
  unfold customPortParser at h
  obtain ⟨m1, a1, h1, h2⟩ := pbind_done h
  obtain ⟨m2, p, h3, h4⟩ := pbind_done h2
  obtain ⟨m3, a3, h5, h6⟩ := pbind_done h4
  obtain ⟨a4, h7, h8⟩ := pmap_done h6
  exact ⟨p, h8⟩

/-- Value shape of customPidParser successes. -/
theorem customPid_done_shape {input rest : List Byte} {d : Directive}
    (h : customPidParser input = .Done rest d) : ∃ p, d = Directive.PID p := by
  unfold customPidParser at h
  obtain ⟨m1, a1, h1, h2⟩ := pbind_done h
  obtain ⟨m2, p, h3, h4⟩ := pbind_done h2
  obtain ⟨m3, a3, h5, h6⟩ := pbind_done h4
  obtain ⟨a4, h7, h8⟩ := pmap_done h6
  exact ⟨p, h8⟩

/-- Value shape of finalStatusParser successes. -/
theorem finalStatus_done_shape {input rest : List Byte} {d : Directive}
    (h : finalStatusParser input = .Done rest d) : d = Directive.FinalStatus := by
  unfold finalStatusParser at h
  obtain ⟨m1, a1, h1, h2⟩ := pbind_done h
  obtain ⟨a2, h3, h4⟩ := pmap_done h2
  exact h4

/-- Value shape of the dispatch-table fallback branch. -/
theorem lastBranch_done_shape {input rest : List Byte} {d : Directive}
    (h : pmapRes (takeStr 1) Directive.fromStr input = .Done rest d) :
    textParamNE d ∧ (∀ s, d = Directive.Literal s → s = [37]) := by
  obtain ⟨s, h1, h2⟩ := pmapRes_done h
  obtain ⟨c, hsc, hfc⟩ := fromStr_some h2
  exact fromChar_shape hfc

/-- Every directive produced by directiveParser has a non-empty text parameter when it has one, and its only Literal output is the percent sign. -/
theorem directive_done_shape {input rest : List Byte} {d : Directive}
    (h : directiveParser input = .Done rest d) :
    textParamNE d ∧ (∀ s, d = Directive.Literal s → s = [37]) := by
  unfold directiveParser preceded at h
  obtain ⟨mid, a, h1, h2⟩ := pbind_done h
  obtain ⟨p, hmem, hp⟩ := palt_done h2
  simp only [List.mem_cons, List.not_mem_nil, or_false] at hmem
  rcases hmem with rfl | rfl | rfl | rfl | rfl | rfl | rfl | rfl | rfl | rfl | rfl | rfl
  · rw [peerIp_done_shape hp]
    exact ⟨True.intro, fun s hs => Directive.noConfusion hs⟩
  · obtain ⟨s, hds, hne⟩ := cookie_done_shape hp
    subst hds
    exact ⟨hne, fun s2 hs2 => Directive.noConfusion hs2⟩
  · obtain ⟨s, hds, hne⟩ := envVar_done_shape hp
    subst hds
    exact ⟨hne, fun s2 hs2 => Directive.noConfusion hs2⟩
  · obtain ⟨s, hds, hne⟩ := reqHeader_done_shape hp
    subst hds
    exact ⟨hne, fun s2 hs2 => Directive.noConfusion hs2⟩
  · obtain ⟨s, hds, hne⟩ := note_done_shape hp
    subst hds
    exact ⟨hne, fun s2 hs2 => Directive.noConfusion hs2⟩
  · obtain ⟨s, hds, hne⟩ := resHeader_done_shape hp
    subst hds
    exact ⟨hne, fun s2 hs2 => Directive.noConfusion hs2⟩
  · obtain ⟨p2, hdp⟩ := customPort_done_shape hp
    subst hdp
    exact ⟨True.intro, fun s hs => Directive.noConfusion hs⟩
  · obtain ⟨p2, hdp⟩ := customPid_done_shape hp
    subst hdp
    exact ⟨True.intro, fun s hs => Directive.noConfusion hs⟩
  · rw [finalStatus_done_shape hp]
    exact ⟨True.intro, fun s hs => Directive.noConfusion hs⟩
  · obtain ⟨s, hds, hne⟩ := reqTrailer_done_shape hp
    subst hds
    exact ⟨hne, fun s2 hs2 => Directive.noConfusion hs2⟩
  · obtain ⟨s, hds, hne⟩ := resTrailer_done_shape hp
    subst hds
    exact ⟨hne, fun s2 hs2 => Directive.noConfusion hs2⟩
  · exact lastBranch_done_shape hp

/-- Structure of a literal-scanner success on a non-empty input: a non-empty percent-free Literal, with the whole consumed prefix in front of a remainder that is empty or percent-headed. -/
theorem constant_done_struct {input rest : List Byte} {d : Directive} (hi : input ≠ [])
    (h : constantParser input = .Done rest d) :
    ∃ s, d = Directive.Literal s ∧ s ≠ [] ∧ (∀ b ∈ s, b ≠ 37) ∧ input = s ++ rest ∧
      (rest = [] ∨ ∃ t2, rest = 37 :: t2) := by
  unfold constantParser at h
  obtain ⟨s0, h1, h2⟩ := pmap_done h
  obtain ⟨v, h3, h4⟩ := pmapRes_done h1
  obtain ⟨hsv, _⟩ := fromUtf8_some h4
  subst hsv
  obtain ⟨happ, hnb, hne, hrest⟩ := isNot_done h3
  refine ⟨s0, h2, hne hi, ?_, happ, ?_⟩
  · intro b hb heq
    have hf : ([37] : List Byte).contains b = false := hnb b hb
    rw [heq] at hf
    have ht : ([37] : List Byte).contains 37 = true := contains_single.mpr rfl
    exact Bool.noConfusion (ht.symm.trans hf)
  · by_cases hr : rest = []
    · exact Or.inl hr
    · obtain ⟨b, t2, hbt, hc⟩ := hrest hr
      have hb37 : b = 37 := contains_single.mp hc
      subst hb37
      exact Or.inr ⟨t2, hbt⟩

/-- The literal scanner fails at once on a percent-headed input. -/
theorem constant_err_pct {t : List Byte} : constantParser (37 :: t) = .Error .IsNot := by
  unfold constantParser
  have hi : isNot [37] (37 :: t) = .Error .IsNot := isNot_err (contains_single.mpr rfl)
  exact pmap_err (pmapRes_err hi)

/-- A driver-child success is either a directive success, or a directive failure followed by a literal-scanner success. -/
theorem dirOrConst_done_inv {input rest : List Byte} {d : Directive}
    (h : dirOrConst input = .Done rest d) :
    directiveParser input = .Done rest d ∨
      ((∃ e, directiveParser input = .Error e) ∧ constantParser input = .Done rest d) := by
  unfold dirOrConst at h
  cases hd : directiveParser input with
  | Done r a =>
    rw [palt_cons_done hd] at h
    injection h with h1 h2
    subst h1; subst h2
    exact Or.inl rfl
  | Error e =>
    rw [palt_cons_err hd] at h
    cases hc : constantParser input with
    | Done r a =>
      rw [palt_cons_done hc] at h
      injection h with h1 h2
      subst h1; subst h2
      exact Or.inr ⟨⟨e, rfl⟩, rfl⟩
    | Error e2 => rw [palt_cons_err hc] at h; exact NomResult.noConfusion h
    | Incomplete n => rw [palt_cons_inc hc] at h; exact NomResult.noConfusion h
  | Incomplete n => rw [palt_cons_inc hd] at h; exact NomResult.noConfusion h

/-- The driver child never succeeds on empty input. -/
theorem dirOrConst_nil : dirOrConst [] = NomResult.Incomplete (Needed.Size 1) := by
  decide

/-- Every driver-child success consumes at least one byte. -/
theorem dirOrConst_progress {input rest : List Byte} {d : Directive}
    (h : dirOrConst input = .Done rest d) : rest.length < input.length := by
  by_cases hi : input = []
  · subst hi
    rw [dirOrConst_nil] at h
    exact NomResult.noConfusion h
  rcases dirOrConst_done_inv h with hd | ⟨_, hc⟩
  · obtain ⟨mid, hmid, pre, hpre⟩ := directive_done_cons hd
    subst hmid
    have h1 : rest.length ≤ mid.length := by
      rw [← hpre, List.length_append]
      omega
    have h2 : (37 :: mid).length = mid.length + 1 := rfl
    omega
  · obtain ⟨s, _, hsne, _, happ, _⟩ := constant_done_struct hi hc
    have h1 : input.length = s.length + rest.length := by
      rw [happ, List.length_append]
    have h2 : 0 < s.length := List.length_pos.mpr hsne
    omega

/-- Computation rule: the many0 loop stops at once on empty input. -/
theorem many0F_nil {α : Type} (p : Parser α) (fuel : Nat) :
    many0F p (fuel + 1) [] = some (.Done [] []) := by
  simp [many0F]

/-- Computation rule: a child Error stops the loop, reporting Done with the unconsumed input. -/
theorem many0F_err {α : Type} {p : Parser α} {fuel : Nat} {input : List Byte} {e : ErrKind}
    (hi : input ≠ []) (h : p input = .Error e) :
    many0F p (fuel + 1) input = some (.Done input []) := by
  simp only [many0F]
  rw [if_neg hi]
  simp only [h]

/-- Computation rule: a child Incomplete propagates. -/
theorem many0F_inc {α : Type} {p : Parser α} {fuel : Nat} {input : List Byte} {n : Needed}
    (hi : input ≠ []) (h : p input = .Incomplete n) :
    many0F p (fuel + 1) input = some (.Incomplete n) := by
  simp only [many0F]
  rw [if_neg hi]
  simp only [h]

/-- Computation rule: a child success with progress steps the loop. -/
theorem many0F_step {α : Type} {p : Parser α} {fuel : Nat} {input i : List Byte} {o : α}
    (hi : input ≠ []) (h : p input = .Done i o) (hne : i ≠ input) :
    many0F p (fuel + 1) input =
      match many0F p fuel i with
      | none => none
      | some (.Done rest res) => some (.Done rest (o :: res))
      | some (.Error e) => some (.Error e)
      | some (.Incomplete .Unknown) => some (.Incomplete .Unknown)
      | some (.Incomplete (.Size j)) => some (.Incomplete (.Size (j + (input.length - i.length)))) := by
  simp only [many0F]
  rw [if_neg hi]
  simp only [h]
  rw [if_neg hne]

/-- Computation rule: a child success without progress aborts the loop with Error(Many0). -/
theorem many0F_stuck {α : Type} {p : Parser α} {fuel : Nat} {input : List Byte} {o : α}
    (hi : input ≠ []) (h : p input = .Done input o) :
    many0F p (fuel + 1) input = some (.Error .Many0) := by
  simp only [many0F]
  rw [if_neg hi]
  simp only [h]
  simp

/-- Computation rule: a child that consumes the whole remaining input yields a one-element step. -/
theorem many0F_single {α : Type} {p : Parser α} {fuel : Nat} {input : List Byte} {o : α}
    (hi : input ≠ []) (h : p input = .Done [] o) :
    many0F p (fuel + 1 + 1) input = some (.Done [] [o]) := by
  have hne : ([] : List Byte) ≠ input := fun he => hi he.symm
  rw [many0F_step hi h hne, many0F_nil p fuel]

/-- With one fuel unit per byte plus one, a progressing child never exhausts the fuel. -/
theorem many0F_isSome {α : Type} {p : Parser α}
    (hprog : ∀ input rest a, p input = .Done rest a → rest.length < input.length) :
    ∀ (fuel : Nat) (input : List Byte), input.length < fuel → (many0F p fuel input).isSome = true := by
  intro fuel
  induction fuel with
  | zero => intro input h; omega
  | succ k ih =>
    intro input hlen
    by_cases hi : input = []
    · subst hi; rw [many0F_nil]; rfl
    · cases hp : p input with
      | Error e => rw [many0F_err hi hp]; rfl
      | Incomplete n => rw [many0F_inc hi hp]; rfl
      | Done i o =>
        by_cases hne : i = input
        · subst hne
          rw [many0F_stuck hi hp]
          rfl
        · rw [many0F_step hi hp hne]
          have hlt : i.length < k := by
            have := hprog input i o hp
            omega
          have hsome := ih i hlt
          cases hm : many0F p k i with
          | none => rw [hm] at hsome; exact absurd hsome (by simp)
          | some r =>
            cases r with
            | Done rest res => rfl
            | Error e => rfl
            | Incomplete n =>
              cases n with
              | Unknown => rfl
              | Size j => rfl

/-- The unconsumed remainder of a many0 run is a suffix of its input. -/
theorem many0F_suffix {α : Type} {p : Parser α} (hs : pSuffix p) :
    ∀ (fuel : Nat) (input rest : List Byte) (toks : List α),
      many0F p fuel input = some (.Done rest toks) → ∃ pre, pre ++ rest = input := by
  intro fuel
  induction fuel with
  | zero => intro input rest toks h; exact Option.noConfusion h
  | succ k ih =>
    intro input rest toks h
    by_cases hi : input = []
    · subst hi
      rw [many0F_nil] at h
      injection h with h1
      injection h1 with h2 h3
      exact ⟨[], by rw [← h2]; rfl⟩
    · cases hp : p input with
      | Error e =>
        rw [many0F_err hi hp] at h
        injection h with h1
        injection h1 with h2 h3
        exact ⟨[], by rw [← h2]; exact List.nil_append input⟩
      | Incomplete n =>
        rw [many0F_inc hi hp] at h
        injection h with h1
        exact NomResult.noConfusion h1
      | Done i o =>
        by_cases hne : i = input
        · subst hne
          rw [many0F_stuck hi hp] at h
          injection h with h1
          exact NomResult.noConfusion h1
        · rw [many0F_step hi hp hne] at h
          obtain ⟨pre1, hpre1⟩ := hs input i o hp
          cases hm : many0F p k i with
          | none => rw [hm] at h; exact Option.noConfusion h
          | some r =>
            rw [hm] at h
            cases r with
            | Done rest2 res =>
              injection h with h1
              injection h1 with h2 h3
              obtain ⟨pre2, hpre2⟩ := ih i rest2 res hm
              refine ⟨pre1 ++ pre2, ?_⟩
              rw [List.append_assoc, ← h2, hpre2, hpre1]
            | Error e => injection h with h1; exact NomResult.noConfusion h1
            | Incomplete n =>
              cases n with
              | Unknown => injection h with h1; exact NomResult.noConfusion h1
              | Size j => injection h with h1; exact NomResult.noConfusion h1


/-- Facts about one driver-child step: the produced token is well shaped; a scanner Literal leaves an empty or percent-headed remainder; and on percent-headed input any Literal produced is the percent sign. -/
theorem child_tok_facts {input i : List Byte} {o : Directive} (hi : input ≠ [])
    (hp : dirOrConst input = NomResult.Done i o) :
    (litOK o ∧ textParamNE o) ∧
    (∀ s, o = Directive.Literal s → s = [37] ∨ (i = [] ∨ i.head? = some 37)) ∧
    (input.head? = some 37 → ∀ s, o = Directive.Literal s → s = [37]) := by
  rcases dirOrConst_done_inv hp with hd | ⟨⟨e, hde⟩, hc⟩
  · obtain ⟨hne_tp, hlit⟩ := directive_done_shape hd
    refine ⟨⟨fun s hs => Or.inl (hlit s hs), hne_tp⟩, ?_, ?_⟩
    · intro s hs
      exact Or.inl (hlit s hs)
    · intro _ s hs
      exact hlit s hs
  · obtain ⟨s, hds, hsne, hno37, happ, hrest⟩ := constant_done_struct hi hc
    refine ⟨⟨?_, ?_⟩, ?_, ?_⟩
    · intro s2 hs2
      rw [hds] at hs2
      injection hs2 with h9
      subst h9
      exact Or.inr ⟨hsne, fun hmem => hno37 37 hmem rfl⟩
    · rw [hds]
      exact True.intro
    · intro s2 hs2
      refine Or.inr ?_
      rcases hrest with hrnil | ⟨t2, hrt⟩
      · exact Or.inl hrnil
      · exact Or.inr (by rw [hrt]; rfl)
    · intro hhead s2 hs2
      cases input with
      | nil => exact absurd rfl hi
      | cons b t =>
        rw [List.head?_cons] at hhead
        injection hhead with h9
        subst h9
        rw [constant_err_pct] at hc
        exact NomResult.noConfusion hc

/-- Master invariant of the driver loop: every returned token is well shaped, adjacent Literal pairs include the percent-sign literal, and on percent-headed input a leading Literal token is the percent sign. -/
theorem many0F_inv :
    ∀ (fuel : Nat) (input rest : List Byte) (toks : List Directive),
      many0F dirOrConst fuel input = some (NomResult.Done rest toks) →
      (∀ t ∈ toks, litOK t ∧ textParamNE t) ∧ adjOK toks ∧
        (∀ s ts, input.head? = some 37 → toks = Directive.Literal s :: ts → s = [37]) := by
  intro fuel
  induction fuel with
  | zero => intro input rest toks h; exact Option.noConfusion h
  | succ k ih =>
    intro input rest toks h
    by_cases hi : input = []
    · subst hi
      rw [many0F_nil] at h
      injection h with h1
      injection h1 with h2 h3
      subst h3
      refine ⟨?_, trivial, ?_⟩
      · intro t ht; exact absurd ht (List.not_mem_nil t)
      · intro s ts _ hcontra; exact List.noConfusion hcontra
    · cases hp : dirOrConst input with
      | Error e =>
        rw [many0F_err hi hp] at h
        injection h with h1
        injection h1 with h2 h3
        subst h3
        refine ⟨?_, trivial, ?_⟩
        · intro t ht; exact absurd ht (List.not_mem_nil t)
        · intro s ts _ hcontra; exact List.noConfusion hcontra
      | Incomplete n =>
        rw [many0F_inc hi hp] at h
        injection h with h1
        exact NomResult.noConfusion h1
      | Done i o =>
        by_cases hne : i = input
        · subst hne
          rw [many0F_stuck hi hp] at h
          injection h with h1
          exact NomResult.noConfusion h1
        · rw [many0F_step hi hp hne] at h
          cases hm : many0F dirOrConst k i with
          | none => rw [hm] at h; exact Option.noConfusion h
          | some r =>
            rw [hm] at h
            cases r with
            | Error e => injection h with h1; exact NomResult.noConfusion h1
            | Incomplete n =>
              cases n with
              | Unknown => injection h with h1; exact NomResult.noConfusion h1
              | Size j => injection h with h1; exact NomResult.noConfusion h1
            | Done rest2 res =>
              injection h with h1
              injection h1 with h2 h3
              subst h2
              subst h3
              obtain ⟨hgood_o, hcross, hheadlit⟩ := child_tok_facts hi hp
              obtain ⟨ihgood, ihadj, ihhead⟩ := ih i rest2 res hm
              refine ⟨?_, ?_, ?_⟩
              · intro t ht
                rcases List.mem_cons.mp ht with rfl | htm
                · exact hgood_o
                · exact ihgood t htm
              · cases res with
                | nil => trivial
                | cons d2 res2 =>
                  refine ⟨?_, ihadj⟩
                  intro s t hos hd2t
                  rcases hcross s hos with h37 | hrest2
                  · exact Or.inl h37
                  · rcases hrest2 with hinil | hihead
                    · exfalso
                      subst hinil
                      cases k with
                      | zero => exact Option.noConfusion hm
                      | succ k2 =>
                        rw [many0F_nil] at hm
                        injection hm with h5
                        injection h5 with h6 h7
                        exact List.noConfusion h7
                    · exact Or.inr (ihhead t res2 hihead (by rw [hd2t]))
              · intro s ts hhead hcons
                injection hcons with h8 h9
                exact hheadlit hhead s h8

/-- A Done result of the top-level entry point comes from the fueled loop. -/
theorem logformat_done_many0F {input rest : List Byte} {toks : List Directive}
    (h : logformatParser input = NomResult.Done rest toks) :
    many0F dirOrConst (input.length + 1) input = some (NomResult.Done rest toks) := by
  unfold logformatParser at h
  cases hm : many0F dirOrConst (input.length + 1) input with
  | none => rw [hm] at h; exact NomResult.noConfusion h
  | some r =>
    rw [hm] at h
    have h2 : r = NomResult.Done rest toks := h
    subst h2
    exact rfl

/-- Claim C2 amended: whenever the top-level parse returns, the returned remainder is a suffix of the input — the failure position is the input length minus the remainder length — so the caller distinguishes a full parse (empty remainder) from an early stop (non-empty remainder); the outcome constructor is the success constructor Done and carries no reason code. -/
theorem c2_done_remainder (input rest : List Byte) (toks : List Directive)
    (h : logformatParser input = NomResult.Done rest toks) :
    ∃ pre, pre ++ rest = input := by
  have hm := logformat_done_many0F h
  exact many0F_suffix dirOrConst_suffix (input.length + 1) input rest toks hm

/-- Witness for the amended Claim C2 on the malformed input abc percent x. -/
theorem c2_witness : ∃ pre, pre ++ ascii "%x" = ascii "abc%x" :=
  c2_done_remainder (ascii "abc%x") (ascii "%x") [Directive.Literal (ascii "abc")] (by decide)

/-- Claim C10: termination of the driver: every successful child step (one directive parse or one literal run) consumes at least one byte, and with one fuel unit per input byte plus one the loop always completes, so the driver performs at most length-plus-one iterations on any input and never loops. -/
theorem c10_termination :
    (∀ (input rest : List Byte) (d : Directive),
        dirOrConst input = NomResult.Done rest d → rest.length < input.length) ∧
    (∀ input : List Byte, (many0F dirOrConst (input.length + 1) input).isSome = true) := by
  refine ⟨fun input rest d h => dirOrConst_progress h, fun input => ?_⟩
  exact many0F_isSome (fun inp r a h => dirOrConst_progress h) (input.length + 1) input (by omega)

/-- Witness for Claim C10 at a concrete input. -/
theorem c10_witness :
    ([] : List Byte).length < (ascii "%a").length ∧
    (many0F dirOrConst ((ascii "%a").length + 1) (ascii "%a")).isSome = true :=
  ⟨c10_termination.1 (ascii "%a") [] Directive.ClientIP (by decide),
   c10_termination.2 (ascii "%a")⟩

/-- Claim C6: an empty brace body is a parse failure, not an empty-string parameter: for each trailing marker C, e, i, n, o, caret-t-i and caret-t-o, the format made of percent, empty braces and the marker consumes nothing and yields no token; and every text-parameterized directive of any successful parse carries a non-empty parameter string. -/
theorem c6_empty_braces :
    (logformatParser (ascii "%\x7b\x7dC") = NomResult.Done (ascii "%\x7b\x7dC") [] ∧
     logformatParser (ascii "%\x7b\x7de") = NomResult.Done (ascii "%\x7b\x7de") [] ∧
     logformatParser (ascii "%\x7b\x7di") = NomResult.Done (ascii "%\x7b\x7di") [] ∧
     logformatParser (ascii "%\x7b\x7dn") = NomResult.Done (ascii "%\x7b\x7dn") [] ∧
     logformatParser (ascii "%\x7b\x7do") = NomResult.Done (ascii "%\x7b\x7do") [] ∧
     logformatParser (ascii "%\x7b\x7d^ti") = NomResult.Done (ascii "%\x7b\x7d^ti") [] ∧
     logformatParser (ascii "%\x7b\x7d^to") = NomResult.Done (ascii "%\x7b\x7d^to") []) ∧
    (∀ (input rest : List Byte) (toks : List Directive) (t : Directive),
        logformatParser input = NomResult.Done rest toks → t ∈ toks → textParamNE t) := by
  constructor
  · exact ⟨by decide, by decide, by decide, by decide, by decide, by decide, by decide⟩
  · intro input rest toks t h ht
    have hm := logformat_done_many0F h
    obtain ⟨hgood, _, _⟩ := many0F_inv (input.length + 1) input rest toks hm
    exact (hgood t ht).2

/-- Witness for Claim C6: the cookie parameter FOO parsed from a concrete format is non-empty. -/
theorem c6_witness : textParamNE (Directive.Cookie (ascii "FOO")) :=
  c6_empty_braces.2 (ascii "%\x7bFOO\x7dC") [] [Directive.Cookie (ascii "FOO")]
    (Directive.Cookie (ascii "FOO")) (by decide) (by decide)

/-- Claim C9: invariants of every token sequence produced by the top-level parse: the text of every Literal token is the percent sign (from the double-percent directive) or a non-empty percent-free run, and two adjacent Literal tokens always include the percent-sign literal — no two literal-scanner runs are adjacent, consecutive percent-free bytes being coalesced into one Literal. -/
theorem c9_literal_invariants (input rest : List Byte) (toks : List Directive)
    (h : logformatParser input = NomResult.Done rest toks) :
    (∀ t ∈ toks, litOK t) ∧ adjOK toks := by
  have hm := logformat_done_many0F h
  obtain ⟨hgood, hadj, _⟩ := many0F_inv (input.length + 1) input rest toks hm
  exact ⟨fun t ht => (hgood t ht).1, hadj⟩

/-- Witness for Claim C9 on the format a percent percent b, whose output has adjacent Literals around the percent-sign token. -/
theorem c9_witness :
    (∀ t ∈ [Directive.Literal (ascii "a"), Directive.Literal [37], Directive.Literal (ascii "b")], litOK t) ∧
    adjOK [Directive.Literal (ascii "a"), Directive.Literal [37], Directive.Literal (ascii "b")] :=
  c9_literal_invariants (ascii "a%%b") []
    [Directive.Literal (ascii "a"), Directive.Literal [37], Directive.Literal (ascii "b")] (by decide)

/-- Computation rule for pchar on empty input. -/
theorem pchar_nil {c : Byte} : pchar c [] = NomResult.Incomplete (Needed.Size 1) := rfl

/-- Computation rule for pchar on a matching head byte. -/
theorem pchar_cons {c : Byte} {r : List Byte} : pchar c (c :: r) = NomResult.Done r c := by
  simp [pchar]

/-- Computation rule for pchar on a mismatching head byte. -/
theorem pchar_err {c b : Byte} {t : List Byte} (h : b ≠ c) : pchar c (b :: t) = NomResult.Error ErrKind.Char := by
  simp only [pchar]
  rw [if_neg h]

/-- Non-membership in a one-element byte list through contains. -/
theorem contains_single_ne {x b : Byte} (h : b ≠ x) : ([x] : List Byte).contains b = false := by
  cases hc : ([x] : List Byte).contains b with
  | false => rfl
  | true => exact absurd (contains_single.mp hc) h

/-- The top-level parse of an input whose first driver step consumes everything is that one token. -/
theorem logformat_of_single {input : List Byte} {o : Directive}
    (hi : input ≠ []) (h : dirOrConst input = NomResult.Done [] o) :
    logformatParser input = NomResult.Done [] [o] := by
  cases input with
  | nil => exact absurd rfl hi
  | cons b t =>
    have hstep : many0F dirOrConst (t.length + 1 + 1) (b :: t) = some (NomResult.Done [] [o]) :=
      many0F_single (by simp) h
    unfold logformatParser
    simp only [List.length_cons]
    rw [hstep]

/-- The top-level parse propagates a first-step Incomplete. -/
theorem logformat_of_inc {input : List Byte} {n : Needed}
    (hi : input ≠ []) (h : dirOrConst input = NomResult.Incomplete n) :
    logformatParser input = NomResult.Incomplete n := by
  unfold logformatParser
  rw [many0F_inc hi h]

/-- Claim C3 amended: for every non-empty format string that contains no percent byte and is valid UTF-8, the top-level parse fully consumes it and yields exactly one token, Literal of the whole input. -/
theorem c3_literal_run (s : List Byte) (hne : s ≠ []) (hnp : ¬ (37 ∈ s)) (hv : utf8Valid s = true) :
    logformatParser s = NomResult.Done [] [Directive.Literal s] := by
  have hall : ∀ b ∈ s, ([37] : List Byte).contains b = false :=
    fun b hb => contains_single_ne (fun he => hnp (he ▸ hb))
  have hconst : constantParser s = NomResult.Done [] (Directive.Literal s) := by
    unfold constantParser
    exact pmap_eval (pmapRes_eval (isNot_all hne hall) (fromUtf8_eval hv))
  have hchild : dirOrConst s = NomResult.Done [] (Directive.Literal s) := by
    cases s with
    | nil => exact absurd rfl hne
    | cons b t =>
      have hb : b ≠ 37 := fun he => hnp (by rw [he]; exact List.mem_cons_self 37 t)
      have hdir : directiveParser (b :: t) = NomResult.Error ErrKind.Char := by
        unfold directiveParser preceded
        exact pbind_err1 (pchar_err hb)
      unfold dirOrConst
      rw [palt_cons_err hdir]
      exact palt_cons_done hconst
  exact logformat_of_single hne hchild

/-- Witness for the amended Claim C3 at a concrete percent-free ASCII string. -/
theorem c3_witness : logformatParser (ascii "abc") = NomResult.Done [] [Directive.Literal (ascii "abc")] :=
  c3_literal_run (ascii "abc") (by decide) (by decide) (by decide)

/-- The peer-ip grammar fails with Error(Char) on a braced name followed by a marker other than a. -/
theorem peerIp_err_on {n : List Byte} {m : Byte} {rr : List Byte}
    (hne : n ≠ []) (hnb : ¬ (125 ∈ n)) (hm : m ≠ 97) :
    peerIpParser (123 :: (n ++ 125 :: m :: rr)) = NomResult.Error ErrKind.Char := by
  unfold peerIpParser
  cases n with
  | nil => exact absurd rfl hne
  | cons b t =>
    by_cases hb : b = 99
    · subst hb
      cases t with
      | nil =>
        simp only [List.cons_append, List.nil_append]
        exact pbind_err2 pchar_cons (pbind_err2 pchar_cons (pbind_err2 pchar_cons (pmap_err (pchar_err hm))))
      | cons b2 t2 =>
        have hb2 : b2 ≠ 125 := by
          intro he; subst he; exact hnb (by simp)
        simp only [List.cons_append]
        exact pbind_err2 pchar_cons (pbind_err2 pchar_cons (pbind_err1 (pchar_err hb2)))
    · simp only [List.cons_append]
      exact pbind_err2 pchar_cons (pbind_err1 (pchar_err hb))

/-- Forward evaluation of parens on a well-bracketed non-empty brace-free name. -/
theorem parens_run {n r : List Byte} (hne : n ≠ []) (hnb : ¬ (125 ∈ n)) :
    parens (123 :: (n ++ 125 :: r)) = NomResult.Done r n := by
  unfold parens delimited
  have hisnot : isNot [125] (n ++ 125 :: r) = NomResult.Done (125 :: r) n :=
    isNot_run hne (fun b hb => contains_single_ne (fun he => hnb (he ▸ hb))) (contains_single.mpr rfl)
  exact pbind_done2 pchar_cons (pbind_done2 hisnot (pmap_eval pchar_cons))

/-- A name-parameterized grammar with a one-byte marker fails with Error(Char) when the input carries a different marker. -/
theorem namedGrammar_err {n rr : List Byte} {c m : Byte} {g : List Byte → Directive}
    (hne : n ≠ []) (hnb : ¬ (125 ∈ n)) (hcm : m ≠ c) :
    pmap (pmapRes (terminated parens (pchar c)) fromUtf8) g (123 :: (n ++ 125 :: m :: rr))
      = NomResult.Error ErrKind.Char := by
  apply pmap_err
  apply pmapRes_err
  unfold terminated
  exact pbind_err2 (parens_run hne hnb) (pmap_err (pchar_err hcm))

/-- A name-parameterized grammar with a one-byte marker succeeds on its own marker, producing the directive built from the valid-UTF-8 name. -/
theorem namedGrammar_run {n rr : List Byte} {c : Byte} {g : List Byte → Directive}
    (hne : n ≠ []) (hnb : ¬ (125 ∈ n)) (hv : utf8Valid n = true) :
    pmap (pmapRes (terminated parens (pchar c)) fromUtf8) g (123 :: (n ++ 125 :: c :: rr))
      = NomResult.Done rr (g n) := by
  have hterm : terminated parens (pchar c) (123 :: (n ++ 125 :: c :: rr)) = NomResult.Done rr n := by
    unfold terminated
    exact pbind_done2 (parens_run hne hnb) (pmap_eval pchar_cons)
  exact pmap_eval (pmapRes_eval hterm (fromUtf8_eval hv))

/-- Claim C7 amended: for every non-empty valid-UTF-8 byte run containing no closing brace, the braced req-header form parses to ReqHeader of the run, and likewise the cookie form to Cookie of the run; beyond UTF-8 validity the content is unrestricted. -/
theorem c7_header_param (n : List Byte) (hne : n ≠ []) (hnb : ¬ (125 ∈ n)) (hv : utf8Valid n = true) :
    logformatParser (37 :: 123 :: (n ++ 125 :: 105 :: [])) = NomResult.Done [] [Directive.ReqHeader n] ∧
    logformatParser (37 :: 123 :: (n ++ 125 :: 67 :: [])) = NomResult.Done [] [Directive.Cookie n] := by
  constructor
  · have hpeer : peerIpParser (123 :: (n ++ 125 :: 105 :: [])) = NomResult.Error ErrKind.Char :=
      peerIp_err_on hne hnb (by decide)
    have hck : reqCookieParser (123 :: (n ++ 125 :: 105 :: [])) = NomResult.Error ErrKind.Char := by
      unfold reqCookieParser
      exact namedGrammar_err hne hnb (by decide)
    have henv : envVarParser (123 :: (n ++ 125 :: 105 :: [])) = NomResult.Error ErrKind.Char := by
      unfold envVarParser
      exact namedGrammar_err hne hnb (by decide)
    have hhdr : reqHeaderParser (123 :: (n ++ 125 :: 105 :: [])) = NomResult.Done [] (Directive.ReqHeader n) := by
      unfold reqHeaderParser
      exact namedGrammar_run hne hnb hv
    have hdir : directiveParser (37 :: 123 :: (n ++ 125 :: 105 :: [])) = NomResult.Done [] (Directive.ReqHeader n) := by
      unfold directiveParser preceded
      apply pbind_done2 pchar_cons
      show palt [peerIpParser, reqCookieParser, envVarParser, reqHeaderParser, noteParser,
        resHeaderParser, customPortParser, customPidParser, finalStatusParser,
        reqTrailerParser, resTrailerParser, pmapRes (takeStr 1) Directive.fromStr]
        (123 :: (n ++ 125 :: 105 :: [])) = NomResult.Done [] (Directive.ReqHeader n)
      rw [palt_cons_err hpeer, palt_cons_err hck, palt_cons_err henv]
      exact palt_cons_done hhdr
    have hchild : dirOrConst (37 :: 123 :: (n ++ 125 :: 105 :: [])) = NomResult.Done [] (Directive.ReqHeader n) := by
      unfold dirOrConst
      exact palt_cons_done hdir
    exact logformat_of_single (by simp) hchild
  · have hpeer : peerIpParser (123 :: (n ++ 125 :: 67 :: [])) = NomResult.Error ErrKind.Char :=
      peerIp_err_on hne hnb (by decide)
    have hck : reqCookieParser (123 :: (n ++ 125 :: 67 :: [])) = NomResult.Done [] (Directive.Cookie n) := by
      unfold reqCookieParser
      exact namedGrammar_run hne hnb hv
    have hdir : directiveParser (37 :: 123 :: (n ++ 125 :: 67 :: [])) = NomResult.Done [] (Directive.Cookie n) := by
      unfold directiveParser preceded
      apply pbind_done2 pchar_cons
      show palt [peerIpParser, reqCookieParser, envVarParser, reqHeaderParser, noteParser,
        resHeaderParser, customPortParser, customPidParser, finalStatusParser,
        reqTrailerParser, resTrailerParser, pmapRes (takeStr 1) Directive.fromStr]
        (123 :: (n ++ 125 :: 67 :: [])) = NomResult.Done [] (Directive.Cookie n)
      rw [palt_cons_err hpeer]
      exact palt_cons_done hck
    have hchild : dirOrConst (37 :: 123 :: (n ++ 125 :: 67 :: [])) = NomResult.Done [] (Directive.Cookie n) := by
      unfold dirOrConst
      exact palt_cons_done hdir
    exact logformat_of_single (by simp) hchild

/-- Witness for the amended Claim C7 at the concrete header name FOO. -/
theorem c7_witness :
    logformatParser (37 :: 123 :: (ascii "FOO" ++ 125 :: 105 :: [])) = NomResult.Done [] [Directive.ReqHeader (ascii "FOO")] :=
  (c7_header_param (ascii "FOO") (by decide) (by decide) (by decide)).1

/-- An unterminated brace leaves parens Incomplete: the closing brace is still awaited. -/
theorem parens_inc_unterminated {s : List Byte} (hne : s ≠ []) (hnb : ¬ (125 ∈ s)) :
    ∃ k, parens (123 :: s) = NomResult.Incomplete (Needed.Size k) := by
  have hisnot : isNot [125] s = NomResult.Done [] s :=
    isNot_all hne (fun b hb => contains_single_ne (fun he => hnb (he ▸ hb)))
  have h1 : pbind (isNot [125]) (fun b => pmap (pchar 125) (fun _ => b)) s
      = NomResult.Incomplete (Needed.Size (1 + (s.length - ([] : List Byte).length))) :=
    pbind_inc2 hisnot (pmap_inc pchar_nil)
  have h2 : pbind (pchar 123) (fun _ => pbind (isNot [125]) (fun b => pmap (pchar 125) (fun _ => b))) (123 :: s)
      = NomResult.Incomplete (Needed.Size ((1 + (s.length - ([] : List Byte).length)) + ((123 :: s).length - s.length))) :=
    pbind_inc2 pchar_cons h1
  exact ⟨_, h2⟩

/-- An unterminated brace leaves the cookie grammar Incomplete. -/
theorem cookie_inc_unterminated {s : List Byte} (hne : s ≠ []) (hnb : ¬ (125 ∈ s)) :
    ∃ k, reqCookieParser (123 :: s) = NomResult.Incomplete (Needed.Size k) := by
  obtain ⟨k, hk⟩ := parens_inc_unterminated hne hnb
  refine ⟨k, ?_⟩
  unfold reqCookieParser
  apply pmap_inc
  apply pmapRes_inc
  unfold terminated
  exact pbind_inc1 hk

/-- The directive alternation is Incomplete on any opened but unterminated brace. -/
theorem c8_inner_inc (s : List Byte) (hnb : ¬ (125 ∈ s)) :
    ∃ k, palt [peerIpParser, reqCookieParser, envVarParser, reqHeaderParser, noteParser,
      resHeaderParser, customPortParser, customPidParser, finalStatusParser,
      reqTrailerParser, resTrailerParser, pmapRes (takeStr 1) Directive.fromStr] (123 :: s)
      = NomResult.Incomplete (Needed.Size k) := by
  cases s with
  | nil =>
    have h1 : pbind (pchar 99) (fun _ => pbind (pchar 125) (fun _ => pmap (pchar 97) (fun _ => Directive.PeerIP))) ([] : List Byte)
        = NomResult.Incomplete (Needed.Size 1) := pbind_inc1 pchar_nil
    have h2 : pbind (pchar 123) (fun _ => pbind (pchar 99) (fun _ => pbind (pchar 125) (fun _ => pmap (pchar 97) (fun _ => Directive.PeerIP)))) (123 :: ([] : List Byte))
        = NomResult.Incomplete (Needed.Size (1 + ((123 :: ([] : List Byte)).length - ([] : List Byte).length))) :=
      pbind_inc2 pchar_cons h1
    exact ⟨_, palt_cons_inc h2⟩
  | cons b t =>
    by_cases hb : b = 99
    · subst hb
      cases t with
      | nil =>
        have h1 : pbind (pchar 125) (fun _ => pmap (pchar 97) (fun _ => Directive.PeerIP)) ([] : List Byte)
            = NomResult.Incomplete (Needed.Size 1) := pbind_inc1 pchar_nil
        have h2 : pbind (pchar 99) (fun _ => pbind (pchar 125) (fun _ => pmap (pchar 97) (fun _ => Directive.PeerIP))) (99 :: ([] : List Byte))
            = NomResult.Incomplete (Needed.Size (1 + ((99 :: ([] : List Byte)).length - ([] : List Byte).length))) :=
          pbind_inc2 pchar_cons h1
        have h3 : pbind (pchar 123) (fun _ => pbind (pchar 99) (fun _ => pbind (pchar 125) (fun _ => pmap (pchar 97) (fun _ => Directive.PeerIP)))) (123 :: 99 :: ([] : List Byte))
            = NomResult.Incomplete (Needed.Size ((1 + ((99 :: ([] : List Byte)).length - ([] : List Byte).length)) + ((123 :: 99 :: ([] : List Byte)).length - (99 :: ([] : List Byte)).length))) :=
          pbind_inc2 pchar_cons h2
        exact ⟨_, palt_cons_inc h3⟩
      | cons b2 t2 =>
        have hb2 : b2 ≠ 125 := by
          intro he; subst he; exact hnb (by simp)
        have hpeer : peerIpParser (123 :: 99 :: b2 :: t2) = NomResult.Error ErrKind.Char := by
          unfold peerIpParser
          exact pbind_err2 pchar_cons (pbind_err2 pchar_cons (pbind_err1 (pchar_err hb2)))
        obtain ⟨k, hck⟩ := cookie_inc_unterminated (show (99 :: b2 :: t2 : List Byte) ≠ [] by simp) hnb
        refine ⟨k, ?_⟩
        rw [palt_cons_err hpeer]
        exact palt_cons_inc hck
    · have hpeer : peerIpParser (123 :: b :: t) = NomResult.Error ErrKind.Char := by
        unfold peerIpParser
        exact pbind_err2 pchar_cons (pbind_err1 (pchar_err hb))
      obtain ⟨k, hck⟩ := cookie_inc_unterminated (show (b :: t : List Byte) ≠ [] by simp) hnb
      refine ⟨k, ?_⟩
      rw [palt_cons_err hpeer]
      exact palt_cons_inc hck

/-- Claim C8: an unterminated parameter (a brace opened after percent with no closing brace before the input ends) makes both the directive attempt and the whole parse Incomplete — a reason distinct from the unknown-directive outcome, which is Error(Alt) at the directive level and a silent Done stop at the top level. -/
theorem c8_unterminated (s : List Byte) (hnb : ¬ (125 ∈ s)) :
    (∃ k, directiveParser (37 :: 123 :: s) = NomResult.Incomplete (Needed.Size k)) ∧
    directiveParser (ascii "%x") = NomResult.Error ErrKind.Alt ∧
    (∃ k, logformatParser (37 :: 123 :: s) = NomResult.Incomplete (Needed.Size k)) ∧
    logformatParser (ascii "%x") = NomResult.Done (ascii "%x") [] := by
  obtain ⟨k, hk⟩ := c8_inner_inc s hnb
  have hdir : directiveParser (37 :: 123 :: s)
      = NomResult.Incomplete (Needed.Size (k + ((37 :: 123 :: s).length - (123 :: s).length))) := by
    unfold directiveParser preceded
    exact pbind_inc2 pchar_cons hk
  have hchild : dirOrConst (37 :: 123 :: s)
      = NomResult.Incomplete (Needed.Size (k + ((37 :: 123 :: s).length - (123 :: s).length))) := by
    unfold dirOrConst
    exact palt_cons_inc hdir
  refine ⟨⟨_, hdir⟩, by decide, ⟨_, logformat_of_inc (by simp) hchild⟩, by decide⟩

/-- Witness for Claim C8 at the concrete unterminated format percent brace abc. -/
theorem c8_witness :
    ∃ k, logformatParser (37 :: 123 :: ascii "abc") = NomResult.Incomplete (Needed.Size k) :=
  (c8_unterminated (ascii "abc") (by decide)).2.2.1
